import Mathlib

/-
Verification development for the CSON reader (cson-rust).

A shallow embedding of `src/reader.rs`, `src/repr.rs` and `src/util.rs`:

* Bytes are `Nat` values in 0..255; the buffered byte source of
  `parse_value_from_buf` / `parse_document_from_buf` is a `BufReader` over an
  in-memory slice, so `fill_buf` always exposes the whole unread remainder.
  The input is therefore modelled as a `List Nat` and each primitive returns
  its result together with the unconsumed remainder of the list.
* Machine integers are `Nat`/`Int` with explicit range checks where the code
  checks ranges (`from_str::<i64>` bounds, the 2^53 window).
* Fallible operations return `Except Rerr`, with one error constructor per
  distinct `reader_err` cause string of the source.
* The mutually recursive productions take an explicit fuel argument; fuel is
  an artifact of the embedding (the Rust recursion consumes input and
  terminates on a slice).  Entry points supply fuel that is ample for every
  input exercised below, and all conditional theorems are stated about the
  fueled functions themselves, so fuel never weakens a statement.
-/

namespace Cson

/-- Error causes, one constructor per distinct `reader_err` call site of
`reader.rs` (plus `ioError` for wrapped I/O faults and `fuelExhausted`, an
artifact of the fueled embedding that no Rust behaviour maps to). -/
inductive Rerr where
  | ioError
  | fuelExhausted
  | expectedEndOfFile
  | expectedDocument
  | expectedValue
  | expectedFalse
  | expectedNull
  | expectedTrue
  | expectedColonOrEquals
  | expectedRightBrace
  | expectedRightBracket
  | expectedNumberGotMinus
  | trailingDecimalPoint
  | incompleteExponent
  | incompleteStringLiteral
  | lowerSurrogateNotFollowed (first : Nat)
  | lowerSurrogateBadUpper (first second : Nat)
  | upperSurrogateAlone (second : Nat)
  | invalidHexDigits
  | incompleteEscape
  | unknownEscape (b : Nat)
  | invalidUtf8InQuotedString
  | invalidUtf8InVerbatimString
  | bareStringInvalidChar
  | bareStringEndOfFile
  deriving DecidableEq, Repr

/-- The value model of `repr.rs` (`Atom`).  Strings are the UTF-8 byte
sequences a Rust `String` holds.  `Number` (called `F64` in `repr.rs`) holds
the exact rational value of the decimal literal; this models
`from_str::<f64>`, which by its correct-rounding contract returns exactly
this value whenever it is representable in binary64 (every float payload
compared below is).  `Array` is `repr::List`. -/
inductive Atom where
  | Null
  | True
  | False
  | IntegralNumber (v : Int)
  | Number (v : ℚ)
  | OwnedString (s : List Nat)
  | Array (elems : List Atom)
  | Object (members : List (List Nat × Atom))

/-! ## The ordered key map (`TreeMap<Key, Atom>` of `repr.rs`)

`Key` ordering is `CowString` ordering, i.e. byte-wise lexicographic
comparison of the UTF-8 contents; the map iterates in ascending key order
and `insert` overwrites an existing equal key.  We model the map by its
sorted iteration sequence. -/

/-- Byte-wise lexicographic strict order on key contents (Rust `str` `Ord`). -/
def key_lt : List Nat → List Nat → Bool
  | _, [] => false
  | [], _ :: _ => true
  | a :: as_, b :: bs => if a < b then true else if a = b then key_lt as_ bs else false

/-- Insertion into the sorted member list: the observable effect of
`TreeMap::insert` on the map's iteration sequence (position by key
comparison, overwrite on equal key). -/
def obj_insert (k : List Nat) (v : Atom) : List (List Nat × Atom) → List (List Nat × Atom)
  | [] => [(k, v)]
  | (k1, v1) :: rest =>
    if key_lt k k1 then (k, v) :: (k1, v1) :: rest
    else if k = k1 then (k, v) :: rest
    else (k1, v1) :: obj_insert k v rest

/-- Keys of the member list. -/
def obj_keys (l : List (List Nat × Atom)) : List (List Nat) := l.map Prod.fst

/-- Insertion of a bare key into a key list, mirroring `obj_insert`. -/
def key_insert (k : List Nat) : List (List Nat) → List (List Nat)
  | [] => [k]
  | k1 :: rest =>
    if key_lt k k1 then k :: k1 :: rest
    else if k = k1 then k :: rest
    else k1 :: key_insert k rest

/-- Lookup by key content in the member list. -/
def obj_find (k : List Nat) : List (List Nat × Atom) → Option Atom
  | [] => none
  | (k1, v1) :: rest => if k1 = k then some v1 else obj_find k rest

/-- The member list is strictly ascending in `key_lt` (hence keys unique). -/
def sorted_keys : List (List Nat × Atom) → Bool
  | [] => true
  | [_] => true
  | (k1, _) :: (k2, v2) :: rest => key_lt k1 k2 && sorted_keys ((k2, v2) :: rest)

mutual
/-- Every object inside the atom is strictly sorted by key content. -/
def atom_wf : Atom → Bool
  | .Array l => atoms_wf l
  | .Object o => sorted_keys o && members_wf o
  | _ => true

/-- `atom_wf` on every element of a list. -/
def atoms_wf : List Atom → Bool
  | [] => true
  | a :: rest => atom_wf a && atoms_wf rest

/-- `atom_wf` on every member value. -/
def members_wf : List (List Nat × Atom) → Bool
  | [] => true
  | (_, v) :: rest => atom_wf v && members_wf rest
end

/-! ## Numeric string conversions

`from_str::<i64>` and `from_str::<f64>` are Rust standard-library
collaborators (not repository code).  `i64_from_str` reproduces the integer
parser exactly: optional sign, one or more digits (leading zeros accepted),
`none` on any other shape or on overflow of the signed 64-bit range.
`f64_from_str` returns the exact rational value of the decimal literal; see
the note on `Atom.Number`. -/

/-- ASCII digit test (`b'0'..b'9'`). -/
def is_digit (b : Nat) : Bool := 0x30 ≤ b && b ≤ 0x39

/-- Value of a digit string, most significant first. -/
def digits_val (l : List Nat) : Nat := l.foldl (fun a b => a * 10 + (b - 0x30)) 0

/-- Model of `from_str::<i64>`. -/
def i64_from_str (l : List Nat) : Option Int :=
  let p : Int × List Nat :=
    match l with
    | b :: r => if b = 0x2d then (-1, r) else if b = 0x2b then (1, r) else (1, l)
    | [] => (1, l)
  if p.2 ≠ [] ∧ p.2.all is_digit then
    let v : Int := p.1 * (digits_val p.2 : Int)
    if -(2 ^ 63) ≤ v ∧ v ≤ 2 ^ 63 - 1 then some v else none
  else none

/-- Model of `from_str::<f64>` on the literals the number scanner produces:
the exact rational value `sign * (int.frac) * 10 ^ exp`.  (Inputs not of
that shape yield an unspecified junk value, never consulted.) -/
def f64_from_str (l : List Nat) : ℚ :=
  let sp : Bool × List Nat := match l with | 0x2d :: r => (true, r) | _ => (false, l)
  let ip := sp.2.takeWhile is_digit
  let r1 := sp.2.dropWhile is_digit
  let fp_r2 : List Nat × List Nat :=
    match r1 with
    | 0x2e :: r => (r.takeWhile is_digit, r.dropWhile is_digit)
    | _ => ([], r1)
  let ex : Int :=
    match fp_r2.2 with
    | e :: r3 =>
      if e = 0x65 ∨ e = 0x45 then
        match r3 with
        | 0x2d :: r4 => -(digits_val (r4.takeWhile is_digit) : Int)
        | 0x2b :: r4 => (digits_val (r4.takeWhile is_digit) : Int)
        | _ => (digits_val (r3.takeWhile is_digit) : Int)
      else 0
    | [] => 0
  let mant : ℚ := (digits_val ip : ℚ) + (digits_val fp_r2.1 : ℚ) / (10 : ℚ) ^ fp_r2.1.length
  (if sp.1 then -mant else mant) * (10 : ℚ) ^ ex

/-! ## The non-progress guard of `util.rs` (`read_at_least`)

`read_at_least` issues `r.read` calls in a nested loop: the outer
`while read < min` re-enters as long as too few bytes arrived, the inner
`loop` retries a single read, counting consecutive zero-byte results in
`zeroes` (a variable declared inside the `while` body).  We model the byte
source as the function giving the size of the k-th `read` result, and
collapse the nested loops into one step per `read` call, with fuel counting
calls.  `none` means the loop is still running after `fuel` calls. -/

def no_progress_limit : Nat := 1000

/-- One-step-per-read collapse of the nested loops of `read_at_least`.
State: `(call index, bytes read so far, consecutive zero reads)`.  When the
zero counter reaches the limit the inner `loop` is left by `break`, which
re-enters the outer `while` and re-initialises `zeroes` to 0 — exactly what
`util.rs` does. -/
def read_at_least_aux (src : Nat → Nat) (min : Nat) : Nat → Nat → Nat → Nat → Option Nat
  | 0, _, _, _ => none
  | fuel + 1, call, read, zeroes =>
    if read < min then
      if src call = 0 then
        if no_progress_limit ≤ zeroes + 1 then
          read_at_least_aux src min fuel (call + 1) read 0
        else
          read_at_least_aux src min fuel (call + 1) read (zeroes + 1)
      else
        read_at_least_aux src min fuel (call + 1) (read + src call) 0
    else some read

/-- Result type of `read_at_least` (`util::io::ReadBytes`). -/
inductive ReadBytes where
  | NotEnough (n : Nat)
  | Enough (n : Nat)
  deriving DecidableEq, Repr

/-- `read_at_least` itself, for a buffer large enough for `min` (the
too-short-buffer early error is not modelled as no claim touches it):
run the loops for `fuel` read calls; if they finish, classify the total. -/
def read_at_least (src : Nat → Nat) (min : Nat) (fuel : Nat) : Option ReadBytes :=
  (read_at_least_aux src min fuel 0 0 0).map fun read =>
    if read < min then .NotEnough read else .Enough read

/-! ## Identifier classification tables (`reader.rs`) -/

/-- Full scalar-value test `is_id_start` (Rust `match` ranges are
inclusive). -/
def is_id_start (c : Nat) : Bool :=
  c = 0x24 ∨ c = 0x2D ∨ (0x41 ≤ c ∧ c ≤ 0x5A) ∨ c = 0x5F ∨ (0x61 ≤ c ∧ c ≤ 0x7A) ∨
  c = 0xAA ∨ c = 0xB5 ∨ c = 0xBA ∨ (0xC0 ≤ c ∧ c ≤ 0xD6) ∨ (0xD8 ≤ c ∧ c ≤ 0xF6) ∨
  (0xF8 ≤ c ∧ c ≤ 0x2FF) ∨ (0x370 ≤ c ∧ c ≤ 0x37D) ∨ (0x37F ≤ c ∧ c ≤ 0x1FFF) ∨
  (0x200C ≤ c ∧ c ≤ 0x200D) ∨ (0x2070 ≤ c ∧ c ≤ 0x218F) ∨ (0x2C00 ≤ c ∧ c ≤ 0x2FEF) ∨
  (0x3001 ≤ c ∧ c ≤ 0xD7FF) ∨ (0xF900 ≤ c ∧ c ≤ 0xFDCF) ∨ (0xFDF0 ≤ c ∧ c ≤ 0xFFFD) ∨
  (0x10000 ≤ c ∧ c ≤ 0xEFFFF)

/-- Byte-level pre-check `is_id_start_byte`. -/
def is_id_start_byte (b : Nat) : Bool :=
  b = 0x24 ∨ b = 0x2d ∨ (0x41 ≤ b ∧ b ≤ 0x5a) ∨ b = 0x5f ∨ (0x61 ≤ b ∧ b ≤ 0x7a) ∨
  b = 0xc2 ∨ b = 0xc3 ∨ (0xc4 ≤ b ∧ b ≤ 0xcb) ∨ b = 0xcd ∨ (0xce ≤ b ∧ b ≤ 0xe1) ∨
  b = 0xe2 ∨ (0xe3 ≤ b ∧ b ≤ 0xed) ∨ b = 0xef ∨ (0xf0 ≤ b ∧ b ≤ 0xf3)

/-- Full scalar-value test `is_id_end`. -/
def is_id_end (c : Nat) : Bool :=
  c = 0x24 ∨ (0x2D ≤ c ∧ c ≤ 0x2E) ∨ (0x30 ≤ c ∧ c ≤ 0x39) ∨ (0x41 ≤ c ∧ c ≤ 0x5A) ∨
  c = 0x5F ∨ (0x61 ≤ c ∧ c ≤ 0x7A) ∨ c = 0xAA ∨ c = 0xB5 ∨ c = 0xB7 ∨ c = 0xBA ∨
  (0xC0 ≤ c ∧ c ≤ 0xD6) ∨ (0xD8 ≤ c ∧ c ≤ 0xF6) ∨ (0xF8 ≤ c ∧ c ≤ 0x37D) ∨
  (0x37F ≤ c ∧ c ≤ 0x1FFF) ∨ (0x200C ≤ c ∧ c ≤ 0x200D) ∨ (0x203F ≤ c ∧ c ≤ 0x2040) ∨
  (0x2070 ≤ c ∧ c ≤ 0x218F) ∨ (0x2C00 ≤ c ∧ c ≤ 0x2FEF) ∨ (0x3001 ≤ c ∧ c ≤ 0xD7FF) ∨
  (0xF900 ≤ c ∧ c ≤ 0xFDCF) ∨ (0xFDF0 ≤ c ∧ c ≤ 0xFFFD) ∨ (0x10000 ≤ c ∧ c ≤ 0xEFFFF)

/-- Byte-level pre-check `is_id_end_byte`. -/
def is_id_end_byte (b : Nat) : Bool :=
  b = 0x24 ∨ (0x2d ≤ b ∧ b ≤ 0x2e) ∨ (0x30 ≤ b ∧ b ≤ 0x39) ∨ (0x41 ≤ b ∧ b ≤ 0x5a) ∨
  b = 0x5f ∨ (0x61 ≤ b ∧ b ≤ 0x7a) ∨ b = 0xc2 ∨ b = 0xc3 ∨ (0xc4 ≤ b ∧ b ≤ 0xe1) ∨
  b = 0xe2 ∨ (0xe3 ≤ b ∧ b ≤ 0xed) ∨ b = 0xef ∨ (0xf0 ≤ b ∧ b ≤ 0xf3)

/-! ## UTF-8 helpers (`util.rs`) -/

/-- `utf8_char_width`, the first-byte width table as range tests. -/
def utf8_char_width (b : Nat) : Nat :=
  if b ≤ 0x7F then 1
  else if b ≤ 0xC1 then 0
  else if b ≤ 0xDF then 2
  else if b ≤ 0xEF then 3
  else if b ≤ 0xF4 then 4
  else 0

/-- `encode_utf8_raw` of `util.rs` (the destination is always large enough
in the call sites modelled here). -/
def encode_utf8_raw (code : Nat) : List Nat :=
  if code < 0x80 then [code]
  else if code < 0x800 then
    [((code >>> 6) &&& 0x1F) ||| 0xC0,
     (code &&& 0x3F) ||| 0x80]
  else if code < 0x10000 then
    [((code >>> 12) &&& 0x0F) ||| 0xE0,
     ((code >>> 6) &&& 0x3F) ||| 0x80,
     (code &&& 0x3F) ||| 0x80]
  else
    [((code >>> 18) &&& 0x07) ||| 0xF0,
     ((code >>> 12) &&& 0x3F) ||| 0x80,
     ((code >>> 6) &&& 0x3F) ||| 0x80,
     (code &&& 0x3F) ||| 0x80]

/-- Standard UTF-8 validity of a byte sequence, the check performed by
`String::from_utf8` (rejects overlong forms, surrogates and values above
U+10FFFF). -/
def utf8_valid : List Nat → Bool
  | [] => true
  | b :: rest =>
    if b ≤ 0x7F then utf8_valid rest
    else if 0xC2 ≤ b ∧ b ≤ 0xDF then
      match rest with
      | c1 :: r => (0x80 ≤ c1 && c1 ≤ 0xBF) && utf8_valid r
      | [] => false
    else if 0xE0 ≤ b ∧ b ≤ 0xEF then
      match rest with
      | c1 :: c2 :: r =>
        (decide ((if b = 0xE0 then 0xA0 else 0x80) ≤ c1 ∧
                 c1 ≤ (if b = 0xED then 0x9F else 0xBF)) &&
         (0x80 ≤ c2 && c2 ≤ 0xBF)) && utf8_valid r
      | _ => false
    else if 0xF0 ≤ b ∧ b ≤ 0xF4 then
      match rest with
      | c1 :: c2 :: c3 :: r =>
        (decide ((if b = 0xF0 then 0x90 else 0x80) ≤ c1 ∧
                 c1 ≤ (if b = 0xF4 then 0x8F else 0xBF)) &&
         (0x80 ≤ c2 && c2 ≤ 0xBF) && (0x80 ≤ c3 && c3 ≤ 0xBF)) && utf8_valid r
      | _ => false
    else false

/-- Scalar value of one complete UTF-8 sequence (used by `read_char` after
validation). -/
def utf8_decode_scalar : List Nat → Nat
  | [b0] => b0
  | [b0, b1] => ((b0 &&& 0x1F) <<< 6) ||| (b1 &&& 0x3F)
  | [b0, b1, b2] => ((b0 &&& 0x0F) <<< 12) ||| ((b1 &&& 0x3F) <<< 6) ||| (b2 &&& 0x3F)
  | [b0, b1, b2, b3] =>
    ((b0 &&& 0x07) <<< 18) ||| ((b1 &&& 0x3F) <<< 12) ||| ((b2 &&& 0x3F) <<< 6) ||| (b3 &&& 0x3F)
  | _ => 0

/-! ## Buffered scan primitives over the in-memory source

`parse_value_from_buf` wraps the input slice in a `BufReader`, whose
`fill_buf` exposes the entire unread remainder (and signals end-of-file on
an empty remainder), so `loop_with_buffer` makes at most one productive
pass: the callbacks below are the direct list forms of the scanning
callbacks of `reader.rs`. -/

/-- `peek`: next unconsumed byte, if any. -/
def peek (l : List Nat) : Option Nat := l.head?

/-- `eof`: succeeds exactly on an exhausted source. -/
def eof : List Nat → Except Rerr Unit
  | [] => .ok ()
  | _ :: _ => .error .expectedEndOfFile

/-- `fixed_token_opt`: read `token.len()` bytes and compare; on a mismatch
(or a too-short source, whose zero-padded scratch never equals the token)
the bytes are consumed all the same. -/
def fixed_token_opt (token l : List Nat) : Option Unit × List Nat :=
  if l.take token.length = token then (some (), l.drop token.length)
  else (none, l.drop token.length)

/-- `skip_ws` body: consume spaces, tabs and newline bytes, noting whether a
newline byte was crossed, and re-enter after each `#` comment.  The source
alternates between the whitespace scan and `skip_non_newline_chars`; this
single pass carries an explicit in-comment flag instead: inside a comment
every byte before the next newline byte is discarded, and the newline byte
ending the comment is consumed by the whitespace scan (setting the newline
flag), exactly as the re-entered loop of `reader.rs` does. -/
def skip_ws_aux : Bool → Bool → List Nat → Bool × List Nat
  | _, nl, [] => (nl, [])
  | inComment, nl, b :: r =>
    if inComment then
      if b = 0x0a ∨ b = 0x0d then skip_ws_aux false true r
      else skip_ws_aux true nl r
    else
      if b = 0x20 ∨ b = 0x09 then skip_ws_aux false nl r
      else if b = 0x0a ∨ b = 0x0d then skip_ws_aux false true r
      else if b = 0x23 then skip_ws_aux true nl r
      else (nl, b :: r)

/-- `skip_ws`: returns whether at least one newline byte was crossed,
together with the remainder. -/
def skip_ws (l : List Nat) : Bool × List Nat := skip_ws_aux false false l

/-- `skip_value_separator_opt`: skip whitespace noting newlines; if the
next byte is a comma, consume it and skip trailing whitespace; otherwise a
crossed newline alone is the separator; otherwise there is none. -/
def skip_value_separator_opt (l : List Nat) : Option Unit × List Nat :=
  let p := skip_ws l
  if peek p.2 = some 0x2c then (some (), (skip_ws (p.2.drop 1)).2)
  else if p.1 then (some (), p.2) else (none, p.2)

/-- `non_newline_chars`: the raw bytes up to the next newline byte
(exclusive), plus the remainder starting at that newline byte (or empty). -/
def non_newline_chars (l : List Nat) : List Nat × List Nat :=
  (l.takeWhile (fun b => !(b == 0x0a || b == 0x0d)),
   l.dropWhile (fun b => !(b == 0x0a || b == 0x0d)))

/-- `digits_opt`: consume `*DIGIT`, returning the digits consumed and the
remainder. -/
def digits_opt (l : List Nat) : List Nat × List Nat :=
  (l.takeWhile is_digit, l.dropWhile is_digit)

/-! ## Number literals (`number_no_peek`) -/

/-- Accumulated literal has no decimal point and no exponent marker. -/
def no_dot_exp (s : List Nat) : Bool :=
  s.all fun b => !(b == 0x2e || b == 0x65 || b == 0x45)

/-- Final representation decision of `number_no_peek`: with no fractional or
exponent part, an in-range signed-64-bit parse in the open 2^53 window
yields an integral atom; everything else re-parses the same bytes as a
float. -/
def number_from_bytes (s : List Nat) (try_integral : Bool) : Atom :=
  if try_integral then
    match i64_from_str s with
    | some v => if -(2 ^ 53) < v ∧ v < 2 ^ 53 then .IntegralNumber v else .Number (f64_from_str s)
    | none => .Number (f64_from_str s)
  else .Number (f64_from_str s)

/-- Exponent part (`[ exp ]`) plus the final decision, entered with the
literal bytes accumulated so far. -/
def number_exp_and_finish (bytes : List Nat) (try_integral : Bool) (l : List Nat) :
    Except Rerr (Atom × List Nat) :=
  match l with
  | b :: r =>
    if b = 0x65 ∨ b = 0x45 then
      let p : List Nat × List Nat :=
        match r with
        | c :: r2 => if c = 0x2d ∨ c = 0x2b then (bytes ++ [b, c], r2) else (bytes ++ [b], c :: r2)
        | [] => (bytes ++ [b], [])
      match p.2 with
      | d :: r2 =>
        if is_digit d then
          let q := digits_opt r2
          .ok (number_from_bytes (p.1 ++ d :: q.1) false, q.2)
        else .error .incompleteExponent
      | [] => .error .incompleteExponent
    else .ok (number_from_bytes bytes try_integral, b :: r)
  | [] => .ok (number_from_bytes bytes try_integral, [])

/-- Fractional part (`[ frac ]`) and onwards. -/
def number_frac_and_finish (bytes : List Nat) (l : List Nat) :
    Except Rerr (Atom × List Nat) :=
  match l with
  | 0x2e :: r =>
    (match r with
     | b :: r2 =>
       if is_digit b then
         let q := digits_opt r2
         number_exp_and_finish (bytes ++ 0x2e :: b :: q.1) false q.2
       else .error .trailingDecimalPoint
     | [] => .error .trailingDecimalPoint)
  | _ => number_exp_and_finish bytes true l

/-- `number_no_peek`, entered with the already-consumed first byte `initial`
and the remainder `l`.  A lone `0` not followed by `.`, `e` or `E`
short-circuits to the integral value 0; a `-` must be followed by a digit;
then `*DIGIT`, the optional fraction and the optional exponent. -/
def number_no_peek (initial : Nat) (l : List Nat) : Except Rerr (Atom × List Nat) :=
  if initial = 0x30 ∧ peek l ≠ some 0x2e ∧ peek l ≠ some 0x65 ∧ peek l ≠ some 0x45 then
    .ok (.IntegralNumber 0, l)
  else
    let start : Except Rerr (List Nat × List Nat) :=
      if initial = 0x2d then
        match l with
        | b :: r => if is_digit b then .ok ([initial, b], r) else .error .expectedNumberGotMinus
        | [] => .error .expectedNumberGotMinus
      else .ok ([initial], l)
    match start with
    | .error e => .error e
    | .ok (bytes1, l1) =>
      let q := digits_opt l1
      number_frac_and_finish (bytes1 ++ q.1) q.2

/-! ## Quoted strings -/

/-- Scan of the quoted-string callback: index of the first backslash or
closing delimiter, and whether it was a backslash. -/
def scan_quote (quote : Nat) : List Nat → Option (Nat × Bool)
  | [] => none
  | b :: r =>
    if b = 0x5c then some (0, true)
    else if b = quote then some (0, false)
    else (scan_quote quote r).map fun p => (p.1 + 1, p.2)

/-- Value of one hexadecimal digit byte (`read_hex_digit`). -/
def hex_val (b : Nat) : Option Nat :=
  if 0x30 ≤ b ∧ b ≤ 0x39 then some (b - 0x30)
  else if 0x61 ≤ b ∧ b ≤ 0x66 then some (b - 0x61 + 10)
  else if 0x41 ≤ b ∧ b ≤ 0x46 then some (b - 0x41 + 10)
  else none

/-- One hexadecimal digit after `\u`. -/
def read_hex_digit : List Nat → Except Rerr (Nat × List Nat)
  | [] => .error .incompleteEscape
  | b :: r =>
    match hex_val b with
    | some v => .ok (v, r)
    | none => .error .invalidHexDigits

/-- `escaped_minus_escape`: everything after the backslash; returns a 16-bit
unit (possibly an unpaired surrogate — the caller deals with those). -/
def escaped_minus_escape : List Nat → Except Rerr (Nat × List Nat)
  | [] => .error .incompleteEscape
  | b :: r =>
    if b = 0x27 then .ok (0x27, r)
    else if b = 0x22 then .ok (0x22, r)
    else if b = 0x5c then .ok (0x5c, r)
    else if b = 0x2f then .ok (0x2f, r)
    else if b = 0x62 then .ok (0x08, r)
    else if b = 0x66 then .ok (0x0c, r)
    else if b = 0x6e then .ok (0x0a, r)
    else if b = 0x72 then .ok (0x0d, r)
    else if b = 0x74 then .ok (0x09, r)
    else if b = 0x75 then
      match read_hex_digit r with
      | .error e => .error e
      | .ok (a, r1) =>
        match read_hex_digit r1 with
        | .error e => .error e
        | .ok (b2, r2) =>
          match read_hex_digit r2 with
          | .error e => .error e
          | .ok (c, r3) =>
            match read_hex_digit r3 with
            | .error e => .error e
            | .ok (d, r4) => .ok ((a <<< 12) ||| (b2 <<< 8) ||| (c <<< 4) ||| d, r4)
    else .error (.unknownEscape b)

/-- `quoted_chars_then_quote`: accumulate raw bytes up to each backslash or
the closing delimiter; resolve each escape (pairing surrogates); validate
the whole accumulated buffer as UTF-8 once at the end.  `acc` is the
`bytes` vector of the source; one fuel unit per escape resolved. -/
def quoted_chars_then_quote (fuel : Nat) (quote : Nat) (acc : List Nat) (l : List Nat) :
    Except Rerr (List Nat × List Nat) :=
  match fuel with
  | 0 => .error .fuelExhausted
  | fuel + 1 =>
    match scan_quote quote l with
    | none => .error .incompleteStringLiteral
    | some (i, isEsc) =>
      let acc1 := acc ++ l.take i
      let rest := l.drop (i + 1)
      if isEsc then
        match escaped_minus_escape rest with
        | .error e => .error e
        | .ok (first, r1) =>
          if 0xd800 ≤ first ∧ first ≤ 0xdbff then
            match r1 with
            | 0x5c :: r2 =>
              (match escaped_minus_escape r2 with
               | .error e => .error e
               | .ok (second, r3) =>
                 if 0xdc00 ≤ second ∧ second ≤ 0xdfff then
                   quoted_chars_then_quote fuel quote
                     (acc1 ++ encode_utf8_raw
                       (0x10000 + (((first - 0xd800) <<< 10) ||| (second - 0xdc00)))) r3
                 else .error (.lowerSurrogateBadUpper first second))
            | _ => .error (.lowerSurrogateNotFollowed first)
          else if 0xdc00 ≤ first ∧ first ≤ 0xdfff then
            .error (.upperSurrogateAlone first)
          else
            quoted_chars_then_quote fuel quote (acc1 ++ encode_utf8_raw first) r1
      else
        if utf8_valid acc1 then .ok (acc1, rest) else .error .invalidUtf8InQuotedString

/-- `string_no_peek`, entered after the opening quote has been consumed. -/
def string_no_peek (fuel : Nat) (quote : Nat) (l : List Nat) :
    Except Rerr (List Nat × List Nat) :=
  quoted_chars_then_quote fuel quote [] l

/-! ## Verbatim strings -/

/-- Fragment loop of `verbatim_string_no_peek`, entered with the source
positioned at a `|`.  Each fragment is the raw bytes up to the next newline
byte, independently validated as UTF-8; `consume(1)` of the newline byte is
a no-op at end of input. -/
def verbatim_loop (fuel : Nat) (frags : List (List Nat)) (l : List Nat) :
    Except Rerr (List (List Nat) × List Nat) :=
  match fuel with
  | 0 => .error .fuelExhausted
  | fuel + 1 =>
    let p := non_newline_chars (l.drop 1)
    if utf8_valid p.1 then
      let l4 := (skip_ws (p.2.drop 1)).2
      match peek l4 with
      | some 0x7c => verbatim_loop fuel (frags ++ [p.1]) l4
      | _ => .ok (frags ++ [p.1], l4)
    else .error .invalidUtf8InVerbatimString

/-! ## Bare strings -/

/-- `read_char` of `util.rs`: decode the next UTF-8 scalar value from the
stream.  Invalid encodings surface as an I/O fault; `none` is a clean end of
input.  (On a truncated final sequence the Rust read loop keeps retrying
zero-byte reads; that corner, which no theorem below touches, is surfaced
here as the same I/O fault.) -/
def read_char (l : List Nat) : Except Rerr (Option (Nat × List Nat)) :=
  match l with
  | [] => .ok none
  | b :: r =>
    let w := utf8_char_width b
    if w = 1 then .ok (some (b, r))
    else if w = 0 then .error .ioError
    else
      if (w - 1) ≤ r.length ∧ utf8_valid (b :: r.take (w - 1)) then
        .ok (some (utf8_decode_scalar (b :: r.take (w - 1)), r.drop (w - 1)))
      else .error .ioError

/-- Continuation loop of `bare_string_no_peek`: while the next byte passes
the byte-level pre-check, decode a scalar value and require the full
continuation test.  `s` holds the UTF-8 bytes of the string built so far. -/
def bare_string_loop (fuel : Nat) (s : List Nat) (l : List Nat) :
    Except Rerr (List Nat × List Nat) :=
  match fuel with
  | 0 => .error .fuelExhausted
  | fuel + 1 =>
    match peek l with
    | some b =>
      if is_id_end_byte b then
        match read_char l with
        | .error e => .error e
        | .ok none => .error .bareStringEndOfFile
        | .ok (some (c, r)) =>
          if is_id_end c then bare_string_loop fuel (s ++ encode_utf8_raw c) r
          else .error .bareStringInvalidChar
      else .ok (s, l)
    | none => .ok (s, l)

/-- `bare_string_no_peek`: one identifier-start scalar value, then the
continuation loop. -/
def bare_string_no_peek (fuel : Nat) (l : List Nat) : Except Rerr (List Nat × List Nat) :=
  match read_char l with
  | .error e => .error e
  | .ok none => .error .bareStringEndOfFile
  | .ok (some (c, r)) =>
    if is_id_start c then bare_string_loop fuel (encode_utf8_raw c) r
    else .error .bareStringInvalidChar

/-- `name_opt`: a quoted string or a bare string, or nothing. -/
def name_opt (fuel : Nat) (l : List Nat) : Except Rerr (Option (List Nat) × List Nat) :=
  match l with
  | [] => .ok (none, [])
  | b :: r =>
    if b = 0x22 ∨ b = 0x27 then
      match string_no_peek fuel b r with
      | .error e => .error e
      | .ok (s, r1) => .ok (some s, r1)
    else if is_id_start_byte b then
      match bare_string_no_peek fuel l with
      | .error e => .error e
      | .ok (s, r1) => .ok (some s, r1)
    else .ok (none, l)

/-! ## The recursive descent core -/

mutual
/-- `value_opt`: dispatch on the next byte without consuming it. -/
def value_opt : Nat → List Nat → Except Rerr (Option Atom × List Nat)
  | 0, _ => .error .fuelExhausted
  | fuel + 1, l =>
    match l with
    | [] => .ok (none, [])
    | b :: r =>
      if b = 0x66 then
        match fixed_token_opt [0x66, 0x61, 0x6c, 0x73, 0x65] l with
        | (some _, r1) => .ok (some .False, r1)
        | (none, _) => .error .expectedFalse
      else if b = 0x6e then
        match fixed_token_opt [0x6e, 0x75, 0x6c, 0x6c] l with
        | (some _, r1) => .ok (some .Null, r1)
        | (none, _) => .error .expectedNull
      else if b = 0x74 then
        match fixed_token_opt [0x74, 0x72, 0x75, 0x65] l with
        | (some _, r1) => .ok (some .True, r1)
        | (none, _) => .error .expectedTrue
      else if b = 0x7b then
        match object_no_peek fuel l with
        | .error e => .error e
        | .ok (o, r1) => .ok (some (.Object o), r1)
      else if b = 0x5b then
        match array_no_peek fuel l with
        | .error e => .error e
        | .ok (a, r1) => .ok (some (.Array a), r1)
      else if b = 0x2d ∨ is_digit b then
        match number_no_peek b r with
        | .error e => .error e
        | .ok (a, r1) => .ok (some a, r1)
      else if b = 0x22 ∨ b = 0x27 then
        match string_no_peek fuel b r with
        | .error e => .error e
        | .ok (s, r1) => .ok (some (.OwnedString s), r1)
      else if b = 0x7c then
        match verbatim_loop fuel [] l with
        | .error e => .error e
        | .ok (frags, r1) => .ok (some (.OwnedString (List.intercalate [0x0a] frags)), r1)
      else .ok (none, l)

/-- `object_no_peek`: `{`, whitespace, members, `}`. -/
def object_no_peek : Nat → List Nat → Except Rerr (List (List Nat × Atom) × List Nat)
  | 0, _ => .error .fuelExhausted
  | fuel + 1, l =>
    match object_items_opt fuel (skip_ws (l.drop 1)).2 with
    | .error e => .error e
    | .ok (items, r) =>
      match r with
      | 0x7d :: r1 => .ok (items, r1)
      | _ => .error .expectedRightBrace
termination_by structural fuel => fuel

/-- `object_items_opt`: zero or more members into a fresh map. -/
def object_items_opt : Nat → List Nat → Except Rerr (List (List Nat × Atom) × List Nat)
  | 0, _ => .error .fuelExhausted
  | fuel + 1, l =>
    match member_opt fuel l with
    | .error e => .error e
    | .ok (none, r) => .ok ([], r)
    | .ok (some (k, v), r) => object_items_loop fuel (obj_insert k v []) r
termination_by structural fuel => fuel

/-- Separator-then-member loop of `object_items_opt`. -/
def object_items_loop : Nat → List (List Nat × Atom) → List Nat →
    Except Rerr (List (List Nat × Atom) × List Nat)
  | 0, _, _ => .error .fuelExhausted
  | fuel + 1, items, l =>
    match skip_value_separator_opt l with
    | (none, r) => .ok (items, r)
    | (some _, r) =>
      match member_opt fuel r with
      | .error e => .error e
      | .ok (none, r1) => .ok (items, r1)
      | .ok (some (k, v), r1) => object_items_loop fuel (obj_insert k v items) r1
termination_by structural fuel => fuel

/-- `member_opt`: name, whitespace, `:` or `=`, whitespace, value. -/
def member_opt : Nat → List Nat → Except Rerr (Option (List Nat × Atom) × List Nat)
  | 0, _ => .error .fuelExhausted
  | fuel + 1, l =>
    match name_opt fuel l with
    | .error e => .error e
    | .ok (none, r) => .ok (none, r)
    | .ok (some name, r) =>
      match (skip_ws r).2 with
      | b :: r1 =>
        if b = 0x3a ∨ b = 0x3d then
          match value_opt fuel (skip_ws r1).2 with
          | .error e => .error e
          | .ok (some v, r2) => .ok (some (name, v), r2)
          | .ok (none, _) => .error .expectedValue
        else .error .expectedColonOrEquals
      | [] => .error .expectedColonOrEquals
termination_by structural fuel => fuel

/-- `array_no_peek`: `[`, whitespace, elements, `]`. -/
def array_no_peek : Nat → List Nat → Except Rerr (List Atom × List Nat)
  | 0, _ => .error .fuelExhausted
  | fuel + 1, l =>
    match array_items_opt fuel (skip_ws (l.drop 1)).2 with
    | .error e => .error e
    | .ok (elems, r) =>
      match r with
      | 0x5d :: r1 => .ok (elems, r1)
      | _ => .error .expectedRightBracket
termination_by structural fuel => fuel

/-- `array_items_opt`: zero or more values. -/
def array_items_opt : Nat → List Nat → Except Rerr (List Atom × List Nat)
  | 0, _ => .error .fuelExhausted
  | fuel + 1, l =>
    match value_opt fuel l with
    | .error e => .error e
    | .ok (none, r) => .ok ([], r)
    | .ok (some v, r) => array_items_loop fuel [v] r
termination_by structural fuel => fuel

/-- Separator-then-value loop of `array_items_opt`. -/
def array_items_loop : Nat → List Atom → List Nat → Except Rerr (List Atom × List Nat)
  | 0, _, _ => .error .fuelExhausted
  | fuel + 1, elems, l =>
    match skip_value_separator_opt l with
    | (none, r) => .ok (elems, r)
    | (some _, r) =>
      match value_opt fuel r with
      | .error e => .error e
      | .ok (none, r1) => .ok (elems, r1)
      | .ok (some v, r1) => array_items_loop fuel (elems ++ [v]) r1

termination_by structural fuel => fuel
end

/-! ## Entry points -/

/-- `value`: a value must be present. -/
def value (fuel : Nat) (l : List Nat) : Except Rerr (Atom × List Nat) :=
  match value_opt fuel l with
  | .error e => .error e
  | .ok (some v, r) => .ok (v, r)
  | .ok (none, _) => .error .expectedValue

/-- `document`: a braced object, an array, or an implicit brace-less member
list. -/
def document (fuel : Nat) (l : List Nat) : Except Rerr (Atom × List Nat) :=
  match (skip_ws l).2 with
  | [] => .error .expectedDocument
  | b :: r =>
    if b = 0x7b then
      match object_no_peek fuel (b :: r) with
      | .error e => .error e
      | .ok (o, r1) => .ok (.Object o, r1)
    else if b = 0x5b then
      match array_no_peek fuel (b :: r) with
      | .error e => .error e
      | .ok (a, r1) => .ok (.Array a, r1)
    else
      match object_items_opt fuel (skip_ws (b :: r)).2 with
      | .error e => .error e
      | .ok (o, r1) => .ok (.Object o, r1)

/-- `parse_value`: leading whitespace, one value, trailing whitespace,
end of input. -/
def parse_value (fuel : Nat) (l : List Nat) : Except Rerr Atom :=
  match value fuel (skip_ws l).2 with
  | .error e => .error e
  | .ok (v, r) =>
    match eof (skip_ws r).2 with
    | .ok _ => .ok v
    | .error e => .error e

/-- `parse_document`: the document, trailing whitespace, end of input. -/
def parse_document (fuel : Nat) (l : List Nat) : Except Rerr Atom :=
  match document fuel l with
  | .error e => .error e
  | .ok (v, r) =>
    match eof (skip_ws r).2 with
    | .ok _ => .ok v
    | .error e => .error e

/-- Fuel budget of the entry points: ample for every input below (fuel is
consumed only along strictly input-consuming recursion, see the embedding
note at the top). -/
def initial_fuel (l : List Nat) : Nat := 4 * l.length + 4

/-- `Reader::parse_value_from_buf`. -/
def parse_value_from_buf (l : List Nat) : Except Rerr Atom :=
  parse_value (initial_fuel l) l

/-- `Reader::parse_document_from_buf`. -/
def parse_document_from_buf (l : List Nat) : Except Rerr Atom :=
  parse_document (initial_fuel l) l

/-! ## Claim theorems -/

/-- Helper for C2: under an always-empty source the collapsed loop state
never leaves the `read < min` regime, whatever the retry counter is. -/
theorem read_at_least_aux_stuck (min : Nat) :
    ∀ fuel call read zeroes, read < min →
      read_at_least_aux (fun _ => 0) min fuel call read zeroes = none := by
  intro fuel
  induction fuel with
  | zero => intro call read zeroes _; rfl
  | succ n ih =>
    intro call read zeroes h
    simp only [read_at_least_aux, if_pos h]
    rw [if_pos trivial]
    split
    · exact ih (call + 1) read 0 h
    · exact ih (call + 1) read (zeroes + 1) h

/-- C2.  The claim states that a source reporting zero newly-read bytes for
1000 consecutive attempts is treated as a hard end-of-stream and every such
read terminates.  The code does not do this: in `util.rs::read_at_least`
the `break` taken when `zeroes` reaches `NO_PROGRESS_LIMIT` leaves only the
inner retry `loop`; the outer `while read < min` immediately re-enters and
re-initialises `zeroes`, so against an always-empty source the function
never returns (and the `NotEnough` result it was meant to produce is dead
code).  Formally: for every fuel bound (number of `read` calls performed),
the loop of `read_at_least` over the all-zero source is still running. -/
theorem read_at_least_zero_fills_never_returns :
    (∀ min fuel call read zeroes, read < min →
       read_at_least_aux (fun _ => 0) min fuel call read zeroes = none)
    ∧ (∀ fuel, read_at_least (fun _ => 0) 1 fuel = none) := by
  refine ⟨fun min => read_at_least_aux_stuck min, fun fuel => ?_⟩
  unfold read_at_least
  rw [read_at_least_aux_stuck 1 fuel 0 0 0 (by decide)]
  rfl

/-- Witness for C2: the general statement applied at a concrete state. -/
theorem read_at_least_zero_fills_never_returns_witness :
    (0 : Nat) < 1 ∧ read_at_least_aux (fun _ => 0) 1 2500 0 0 0 = none :=
  ⟨by decide, read_at_least_zero_fills_never_returns.1 1 2500 0 0 0 (by decide)⟩

/-- C3.  The claim states every zero-padded integer literal fails, listing
parse-as-value of "00", "01" and "-01" as errors and "0", "-0" as the
integral value 0.  The code agrees on "00", "01" (the zero shortcut returns
0 and the following digit trips "expected end of file"), on "0" and on
"-0", but the minus branch performs no leading-zero check and
`from_str::<i64>` accepts zero-padded digit strings, so "-01" parses
successfully to the integral value -1 — contradicting the claim and the
grammar `int = zero / ( digit1-9 *DIGIT )` in the code's own doc comment. -/
theorem leading_zero_number_literals :
    parse_value_from_buf [0x30, 0x30] = .error .expectedEndOfFile
    ∧ parse_value_from_buf [0x30, 0x31] = .error .expectedEndOfFile
    ∧ parse_value_from_buf [0x2d, 0x30, 0x31] = .ok (.IntegralNumber (-1))
    ∧ parse_value_from_buf [0x2d, 0x30] = .ok (.IntegralNumber 0)
    ∧ parse_value_from_buf [0x30] = .ok (.IntegralNumber 0) :=
  ⟨rfl, rfl, rfl, rfl, rfl⟩

/-- C6.  Both entry points skip leading and trailing whitespace and comments
and then require end of input: whenever the respective production pipeline
succeeds but whitespace-skipping leaves a nonempty remainder, the entry
point returns the "expected end of file" error and no value; in particular
parse-as-value of "1 2" is that error. -/
theorem trailing_content_expected_end_of_file :
    (∀ l v r, value (initial_fuel l) (skip_ws l).2 = .ok (v, r) → (skip_ws r).2 ≠ [] →
      parse_value_from_buf l = .error .expectedEndOfFile)
    ∧ (∀ l v r, document (initial_fuel l) l = .ok (v, r) → (skip_ws r).2 ≠ [] →
      parse_document_from_buf l = .error .expectedEndOfFile)
    ∧ parse_value_from_buf [0x31, 0x20, 0x32] = .error .expectedEndOfFile := by
  refine ⟨?_, ?_, rfl⟩
  · intro l v r h hne
    simp only [parse_value_from_buf, parse_value, h]
    cases hr : (skip_ws r).2 with
    | nil => exact absurd hr hne
    | cons b t => rfl
  · intro l v r h hne
    simp only [parse_document_from_buf, parse_document, h]
    cases hr : (skip_ws r).2 with
    | nil => exact absurd hr hne
    | cons b t => rfl

/-- Witness for C6: the two conditional parts applied at "1 2" (as a value)
and "a=1 2" (as a document). -/
theorem trailing_content_expected_end_of_file_witness :
    (value (initial_fuel [0x31, 0x20, 0x32]) (skip_ws [0x31, 0x20, 0x32]).2
        = .ok (.IntegralNumber 1, [0x20, 0x32])
      ∧ (skip_ws [0x20, 0x32]).2 ≠ []
      ∧ parse_value_from_buf [0x31, 0x20, 0x32] = .error .expectedEndOfFile)
    ∧ (document (initial_fuel [0x61, 0x3d, 0x31, 0x20, 0x32]) [0x61, 0x3d, 0x31, 0x20, 0x32]
        = .ok (.Object [([0x61], .IntegralNumber 1)], [0x32])
      ∧ (skip_ws [0x32]).2 ≠ []
      ∧ parse_document_from_buf [0x61, 0x3d, 0x31, 0x20, 0x32] = .error .expectedEndOfFile) :=
  ⟨⟨rfl, by decide,
    trailing_content_expected_end_of_file.1 [0x31, 0x20, 0x32] (.IntegralNumber 1)
      [0x20, 0x32] rfl (by decide)⟩,
   ⟨rfl, by decide,
    trailing_content_expected_end_of_file.2.1 [0x61, 0x3d, 0x31, 0x20, 0x32]
      (.Object [([0x61], .IntegralNumber 1)]) [0x32] rfl (by decide)⟩⟩

/-- C7.  A newline crossed between collection items acts exactly like a
comma separator — "[1\n2\n3]" parses identically to "[1,2,3]", the array of
the integral values 1, 2, 3 — and with neither a comma nor a crossed
newline no separator is reported, ending the collection. -/
theorem newline_acts_as_separator :
    parse_value_from_buf [0x5b, 0x31, 0x0a, 0x32, 0x0a, 0x33, 0x5d]
      = parse_value_from_buf [0x5b, 0x31, 0x2c, 0x32, 0x2c, 0x33, 0x5d]
    ∧ parse_value_from_buf [0x5b, 0x31, 0x2c, 0x32, 0x2c, 0x33, 0x5d]
      = .ok (.Array [.IntegralNumber 1, .IntegralNumber 2, .IntegralNumber 3])
    ∧ (∀ l, peek (skip_ws l).2 = some 0x2c →
       skip_value_separator_opt l = (some (), (skip_ws ((skip_ws l).2.drop 1)).2))
    ∧ (∀ l, (skip_ws l).1 = true → peek (skip_ws l).2 ≠ some 0x2c →
       skip_value_separator_opt l = (some (), (skip_ws l).2))
    ∧ (∀ l, (skip_ws l).1 = false → peek (skip_ws l).2 ≠ some 0x2c →
       skip_value_separator_opt l = (none, (skip_ws l).2)) := by
  refine ⟨rfl, rfl, ?_, ?_, ?_⟩
  · intro l h
    simp only [skip_value_separator_opt]
    rw [if_pos h]
  · intro l h1 h2
    simp only [skip_value_separator_opt]
    rw [if_neg h2, if_pos h1]
  · intro l h1 h2
    simp only [skip_value_separator_opt]
    rw [if_neg h2, if_neg (by simp [h1])]

/-- Witness for C7: the three separator statements applied concretely
(a comma after spaces, a bare newline, and neither). -/
theorem newline_acts_as_separator_witness :
    (peek (skip_ws [0x20, 0x2c, 0x32]).2 = some 0x2c
      ∧ skip_value_separator_opt [0x20, 0x2c, 0x32]
        = (some (), (skip_ws ((skip_ws [0x20, 0x2c, 0x32]).2.drop 1)).2))
    ∧ ((skip_ws [0x0a, 0x32]).1 = true
      ∧ skip_value_separator_opt [0x0a, 0x32] = (some (), (skip_ws [0x0a, 0x32]).2))
    ∧ ((skip_ws [0x20, 0x32]).1 = false
      ∧ skip_value_separator_opt [0x20, 0x32] = (none, (skip_ws [0x20, 0x32]).2)) :=
  ⟨⟨by decide, newline_acts_as_separator.2.2.1 [0x20, 0x2c, 0x32] (by decide)⟩,
   ⟨by decide, newline_acts_as_separator.2.2.2.1 [0x0a, 0x32] (by decide) (by decide)⟩,
   ⟨by decide, newline_acts_as_separator.2.2.2.2 [0x20, 0x32] (by decide) (by decide)⟩⟩

/-- C9.  A verbatim string is one or more pipe-introduced fragments of raw
bytes up to the next line terminator, joined with a single line-feed
character: parse-as-value of "|a\n|b" is the string "a\nb"; and whenever
the fragment at the current pipe is not valid UTF-8 the parse fails with
the invalid-UTF-8 error (shown both for the fragment loop at any state and
for the whole parse at a concrete input). -/
theorem verbatim_string_fragments :
    parse_value_from_buf [0x7c, 0x61, 0x0a, 0x7c, 0x62] = .ok (.OwnedString [0x61, 0x0a, 0x62])
    ∧ (∀ fuel frags l, utf8_valid (non_newline_chars (l.drop 1)).1 = false →
       verbatim_loop (fuel + 1) frags l = .error .invalidUtf8InVerbatimString)
    ∧ parse_value_from_buf [0x7c, 0xff] = .error .invalidUtf8InVerbatimString := by
  refine ⟨rfl, ?_, rfl⟩
  intro fuel frags l h
  rw [List.drop_one] at h
  simp only [verbatim_loop]
  rw [if_neg (by simp [h])]

/-- Witness for C9: the fragment-loop statement applied at the concrete
invalid fragment 0xFF. -/
theorem verbatim_string_fragments_witness :
    utf8_valid (non_newline_chars ([0x7c, 0xff].drop 1)).1 = false
    ∧ verbatim_loop 1 [] [0x7c, 0xff] = .error .invalidUtf8InVerbatimString :=
  ⟨by decide, verbatim_string_fragments.2.1 0 [] [0x7c, 0xff] (by decide)⟩

/-- Helper for C10: the quoted-string scan over content free of backslashes
and of the delimiter stops at the closing delimiter. -/
theorem scan_quote_clean (q : Nat) (content : List Nat) (hq : q ≠ 0x5c)
    (hc : ∀ b ∈ content, b ≠ 0x5c ∧ b ≠ q) :
    scan_quote q (content ++ [q]) = some (content.length, false) := by
  induction content with
  | nil => simp [scan_quote, hq]
  | cons c r ih =>
    have hcq := hc c (List.mem_cons_self c r)
    simp only [List.cons_append, scan_quote, List.append_eq]
    rw [if_neg hcq.1, if_neg hcq.2, ih fun b hb => hc b (List.mem_cons_of_mem c hb)]
    simp

/-- Helper for C10: on clean content the quoted-string loop finishes in one
pass, appending the content to the accumulator and consuming the closing
delimiter. -/
theorem quoted_chars_clean (fuel q : Nat) (acc content : List Nat) (hq : q ≠ 0x5c)
    (hc : ∀ b ∈ content, b ≠ 0x5c ∧ b ≠ q)
    (hv : utf8_valid (acc ++ content) = true) :
    quoted_chars_then_quote (fuel + 1) q acc (content ++ [q]) = .ok (acc ++ content, []) := by
  simp only [quoted_chars_then_quote]
  rw [scan_quote_clean q content hq hc]
  simp only [List.take_left, List.length_append]
  rw [show content.length + 1 = content.length + [q].length from rfl,
    ← List.length_append content [q], List.drop_length]
  simp [hv]

/-- C10.  Inside a quoted string the scan stops only at a backslash or the
matching delimiter: any byte sequence containing neither, raw control bytes
included, is accepted verbatim subject only to the final whole-buffer UTF-8
validation, so parsing the delimited sequence yields exactly those bytes. -/
theorem quoted_string_raw_bytes :
    ∀ content q, (q = 0x22 ∨ q = 0x27) →
      (∀ b ∈ content, b ≠ 0x5c ∧ b ≠ q) →
      utf8_valid content = true →
      parse_value_from_buf (q :: (content ++ [q])) = .ok (.OwnedString content) := by
  intro content q hq hc hv
  have hq5c : q ≠ 0x5c := by rcases hq with rfl | rfl <;> decide
  have hfuel : initial_fuel (q :: (content ++ [q])) = (4 * content.length + 10) + 1 + 1 := by
    simp only [initial_fuel, List.length_cons, List.length_append, List.length_cons,
      List.length_nil]
    ring
  have hsw : skip_ws (q :: (content ++ [q])) = (false, q :: (content ++ [q])) := by
    rcases hq with rfl | rfl <;> simp [skip_ws, skip_ws_aux]
  have hstring : string_no_peek ((4 * content.length + 10) + 1) q (content ++ [q])
      = .ok (content, []) := by
    simpa [string_no_peek] using
      quoted_chars_clean (4 * content.length + 10) q [] content hq5c hc (by simpa using hv)
  simp only [parse_value_from_buf, hfuel, parse_value, hsw, value, value_opt]
  rcases hq with rfl | rfl <;>
    simp [hstring, is_digit, skip_ws, skip_ws_aux, eof]

/-- Witness for C10: a double-quoted string whose content holds a raw
line-feed byte parses to exactly those bytes. -/
theorem quoted_string_raw_bytes_witness :
    (∀ b ∈ [0x61, 0x0a], b ≠ 0x5c ∧ b ≠ 0x22)
    ∧ utf8_valid [0x61, 0x0a] = true
    ∧ parse_value_from_buf (0x22 :: ([0x61, 0x0a] ++ [0x22]))
      = .ok (.OwnedString [0x61, 0x0a]) :=
  ⟨by decide, by decide,
   quoted_string_raw_bytes [0x61, 0x0a] 0x22 (Or.inl rfl) (by decide) (by decide)⟩

/-- C4.  Surrogate handling in quoted strings, stated at the escape step of
the string loop (any escape decoding to a unit in 0xD800-0xDBFF is
necessarily a backslash-u escape, single-character escapes decode below
0x5D): a high unit immediately followed by a backslash-u escape decoding to
a unit in 0xDC00-0xDFFF appends the single scalar value
0x10000 + ((first - 0xD800) << 10 | (second - 0xDC00)) and continues; a high
unit not followed by a backslash, or followed by an escape decoding outside
the low range, fails; a lone low unit fails.  Concretely,
"😀" in a string decodes to U+1F600 (bytes F0 9F 98 80), while
"\uD800" and "\uDC00" alone are errors. -/
theorem surrogate_pair_decoding :
    (∀ fuel q acc tail first r1 r2 second r3,
      escaped_minus_escape tail = .ok (first, r1) →
      0xd800 ≤ first → first ≤ 0xdbff →
      r1 = 0x5c :: r2 →
      escaped_minus_escape r2 = .ok (second, r3) →
      0xdc00 ≤ second → second ≤ 0xdfff →
      quoted_chars_then_quote (fuel + 1) q acc (0x5c :: tail)
        = quoted_chars_then_quote fuel q
            (acc ++ encode_utf8_raw
              (0x10000 + (((first - 0xd800) <<< 10) ||| (second - 0xdc00)))) r3)
    ∧ (∀ fuel q acc tail first r1,
      escaped_minus_escape tail = .ok (first, r1) →
      0xd800 ≤ first → first ≤ 0xdbff →
      peek r1 ≠ some 0x5c →
      quoted_chars_then_quote (fuel + 1) q acc (0x5c :: tail)
        = .error (.lowerSurrogateNotFollowed first))
    ∧ (∀ fuel q acc tail first r1 r2 second r3,
      escaped_minus_escape tail = .ok (first, r1) →
      0xd800 ≤ first → first ≤ 0xdbff →
      r1 = 0x5c :: r2 →
      escaped_minus_escape r2 = .ok (second, r3) →
      ¬(0xdc00 ≤ second ∧ second ≤ 0xdfff) →
      quoted_chars_then_quote (fuel + 1) q acc (0x5c :: tail)
        = .error (.lowerSurrogateBadUpper first second))
    ∧ (∀ fuel q acc tail second r1,
      escaped_minus_escape tail = .ok (second, r1) →
      0xdc00 ≤ second → second ≤ 0xdfff →
      quoted_chars_then_quote (fuel + 1) q acc (0x5c :: tail)
        = .error (.upperSurrogateAlone second))
    ∧ parse_value_from_buf
        [0x22, 0x5c, 0x75, 0x44, 0x38, 0x33, 0x44, 0x5c, 0x75, 0x44, 0x45, 0x30, 0x30, 0x22]
        = .ok (.OwnedString [0xF0, 0x9F, 0x98, 0x80])
    ∧ parse_value_from_buf [0x22, 0x5c, 0x75, 0x44, 0x38, 0x30, 0x30, 0x22]
        = .error (.lowerSurrogateNotFollowed 0xd800)
    ∧ parse_value_from_buf [0x22, 0x5c, 0x75, 0x44, 0x43, 0x30, 0x30, 0x22]
        = .error (.upperSurrogateAlone 0xdc00) := by
  refine ⟨?_, ?_, ?_, ?_, rfl, rfl, rfl⟩
  · intro fuel q acc tail first r1 r2 second r3 h1 h2 h3 hr1 h4 h5 h6
    subst hr1
    simp [quoted_chars_then_quote, scan_quote, h1, h2, h3, h4, h5, h6]
  · intro fuel q acc tail first r1 h1 h2 h3 hpk
    simp only [quoted_chars_then_quote, scan_quote]
    rw [if_pos trivial]
    simp only [List.take_zero, List.append_nil, List.drop_succ_cons, List.drop_zero, h1,
      if_true]
    rw [if_pos ⟨h2, h3⟩]
    cases hr : r1 with
    | nil => rfl
    | cons b t =>
      have hb : b ≠ 0x5c := by
        intro e
        apply hpk
        rw [hr, e]
        rfl
      split
      · rename_i heq
        exact absurd (List.cons.inj heq).1 hb
      · rfl
  · intro fuel q acc tail first r1 r2 second r3 h1 h2 h3 hr1 h4 h5
    subst hr1
    simp [quoted_chars_then_quote, scan_quote, h1, h2, h3, h4, h5]
  · intro fuel q acc tail second r1 h1 h2 h3
    have hnh : ¬(0xd800 ≤ second ∧ second ≤ 0xdbff) := by omega
    simp only [quoted_chars_then_quote, scan_quote]
    rw [if_pos trivial]
    simp only [List.take_zero, List.append_nil, List.drop_succ_cons, List.drop_zero, h1,
      if_true]
    rw [if_neg hnh, if_pos ⟨h2, h3⟩]

/-- Witness for C4: the pair rule applied at the concrete escapes of
U+1F600, together with the two error rules at concrete lone surrogates. -/
theorem surrogate_pair_decoding_witness :
    (escaped_minus_escape [0x75, 0x44, 0x38, 0x33, 0x44, 0x5c, 0x75, 0x44, 0x45, 0x30, 0x30]
        = .ok (0xd83d, [0x5c, 0x75, 0x44, 0x45, 0x30, 0x30])
      ∧ escaped_minus_escape [0x75, 0x44, 0x45, 0x30, 0x30] = .ok (0xde00, ([] : List Nat))
      ∧ quoted_chars_then_quote 2 0x22 []
          (0x5c :: [0x75, 0x44, 0x38, 0x33, 0x44, 0x5c, 0x75, 0x44, 0x45, 0x30, 0x30])
        = quoted_chars_then_quote 1 0x22
            ([] ++ encode_utf8_raw
              (0x10000 + (((0xd83d - 0xd800) <<< 10) ||| (0xde00 - 0xdc00)))) [])
    ∧ quoted_chars_then_quote 1 0x27 [] (0x5c :: [0x75, 0x44, 0x38, 0x30, 0x30])
        = .error (.lowerSurrogateNotFollowed 0xd800)
    ∧ quoted_chars_then_quote 1 0x27 [] (0x5c :: [0x75, 0x44, 0x43, 0x30, 0x30])
        = .error (.upperSurrogateAlone 0xdc00) :=
  ⟨⟨rfl, rfl,
    surrogate_pair_decoding.1 1 0x22 []
      [0x75, 0x44, 0x38, 0x33, 0x44, 0x5c, 0x75, 0x44, 0x45, 0x30, 0x30]
      0xd83d [0x5c, 0x75, 0x44, 0x45, 0x30, 0x30] [0x75, 0x44, 0x45, 0x30, 0x30] 0xde00 []
      rfl (by decide) (by decide) rfl rfl (by decide) (by decide)⟩,
   surrogate_pair_decoding.2.1 0 0x27 [] [0x75, 0x44, 0x38, 0x30, 0x30] 0xd800 []
     rfl (by decide) (by decide) (by decide),
   surrogate_pair_decoding.2.2.2.1 0 0x27 [] [0x75, 0x44, 0x43, 0x30, 0x30] 0xdc00 []
     rfl (by decide) (by decide)⟩

/-- First byte of the UTF-8 encoding of a scalar value. -/
def utf8_first_byte (c : Nat) : Nat := (encode_utf8_raw c).headI

theorem lor_tag_c0 : ∀ d < 32, (d &&& 0x1F) ||| 0xC0 = 0xC0 + d := by decide

theorem lor_tag_e0 : ∀ d < 16, (d &&& 0x0F) ||| 0xE0 = 0xE0 + d := by decide

theorem lor_tag_f0 : ∀ d < 8, (d &&& 0x07) ||| 0xF0 = 0xF0 + d := by decide

/-- Arithmetic form of the UTF-8 first byte on the scalar-value range. -/
theorem utf8_first_byte_arith (c : Nat) (hc : c ≤ 0x10FFFF) :
    utf8_first_byte c =
      if c < 0x80 then c
      else if c < 0x800 then 0xC0 + c / 64
      else if c < 0x10000 then 0xE0 + c / 4096
      else 0xF0 + c / 262144 := by
  unfold utf8_first_byte encode_utf8_raw
  by_cases h1 : c < 0x80
  · simp [h1]
  · by_cases h2 : c < 0x800
    · simp only [h1, h2, if_true, if_false, List.headI]
      rw [Nat.shiftRight_eq_div_pow]
      have := lor_tag_c0 (c / 2 ^ 6) (by omega)
      simpa using this
    · by_cases h3 : c < 0x10000
      · simp only [h1, h2, h3, if_true, if_false, List.headI]
        rw [Nat.shiftRight_eq_div_pow]
        have := lor_tag_e0 (c / 2 ^ 12) (by omega)
        simpa using this
      · simp only [h1, h2, h3, if_true, if_false, List.headI]
        rw [Nat.shiftRight_eq_div_pow]
        have := lor_tag_f0 (c / 2 ^ 18) (by omega)
        simpa using this

/-- C8.  The byte-level identifier pre-checks are superset-safe: every
Unicode scalar value accepted by the full identifier-start
(resp. identifier-continuation) test has a first UTF-8 byte accepted by the
corresponding byte-level test. -/
theorem id_byte_tests_superset_safe :
    ∀ c, c ≤ 0x10FFFF → ¬(0xD800 ≤ c ∧ c ≤ 0xDFFF) →
      (is_id_start c = true → is_id_start_byte (utf8_first_byte c) = true)
      ∧ (is_id_end c = true → is_id_end_byte (utf8_first_byte c) = true) := by
  intro c hmax _hsurr
  constructor <;> intro h
  · simp only [is_id_start, decide_eq_true_eq] at h
    rw [utf8_first_byte_arith c hmax]
    simp only [is_id_start_byte, decide_eq_true_eq]
    split_ifs <;> omega
  · simp only [is_id_end, decide_eq_true_eq] at h
    rw [utf8_first_byte_arith c hmax]
    simp only [is_id_end_byte, decide_eq_true_eq]
    split_ifs <;> omega

/-- Witness for C8: the statement applied at U+3042 (hiragana A), a
three-byte scalar value accepted by both full tests. -/
theorem id_byte_tests_superset_safe_witness :
    ((0x3042 : Nat) ≤ 0x10FFFF ∧ ¬(0xD800 ≤ (0x3042 : Nat) ∧ (0x3042 : Nat) ≤ 0xDFFF)
      ∧ is_id_start 0x3042 = true)
    ∧ is_id_start_byte (utf8_first_byte 0x3042) = true
    ∧ is_id_end_byte (utf8_first_byte 0x3042) = true :=
  ⟨⟨by decide, by decide, by decide⟩,
   (id_byte_tests_superset_safe 0x3042 (by decide) (by decide)).1 (by decide),
   (id_byte_tests_superset_safe 0x3042 (by decide) (by decide)).2 (by decide)⟩

/-! ## Helper lemmas for C5: the sorted member list under insertion -/

theorem key_lt_irrefl : ∀ k, key_lt k k = false := by
  intro k
  induction k with
  | nil => rfl
  | cons a as ih => simp [key_lt, ih]

theorem key_lt_connex : ∀ a b : List Nat, a ≠ b → key_lt a b = true ∨ key_lt b a = true := by
  intro a
  induction a with
  | nil =>
    intro b hne
    cases b with
    | nil => exact absurd rfl hne
    | cons c cs => left; rfl
  | cons x xs ih =>
    intro b hne
    cases b with
    | nil => right; rfl
    | cons c cs =>
      by_cases hlt : x < c
      · left; simp [key_lt, hlt]
      · by_cases hgt : c < x
        · right; simp [key_lt, hgt]
        · have hxc : x = c := by omega
          subst hxc
          have hne2 : xs ≠ cs := fun e => hne (by rw [e])
          rcases ih cs hne2 with h | h
          · left; simp [key_lt, h]
          · right; simp [key_lt, h]

/-- Head-key bound used by `sorted_keys`. -/
def key_lt_head (k : List Nat) : List (List Nat × Atom) → Bool
  | [] => true
  | (k2, _) :: _ => key_lt k k2

theorem sorted_keys_cons (k1 : List Nat) (v1 : Atom) (l : List (List Nat × Atom)) :
    sorted_keys ((k1, v1) :: l) = (key_lt_head k1 l && sorted_keys l) := by
  cases l with
  | nil => rfl
  | cons p rest => cases p; rfl

theorem key_lt_head_insert (k1 k : List Nat) (v : Atom) (l : List (List Nat × Atom))
    (hk : key_lt k1 k = true) (hh : key_lt_head k1 l = true) :
    key_lt_head k1 (obj_insert k v l) = true := by
  cases l with
  | nil => exact hk
  | cons p rest =>
    obtain ⟨k2, v2⟩ := p
    simp only [obj_insert]
    by_cases h1 : key_lt k k2 = true
    · rw [if_pos h1]; exact hk
    · rw [if_neg h1]
      by_cases h2 : k = k2
      · rw [if_pos h2]; exact hk
      · rw [if_neg h2]; exact hh

theorem obj_insert_sorted (k : List Nat) (v : Atom) :
    ∀ l, sorted_keys l = true → sorted_keys (obj_insert k v l) = true := by
  intro l
  induction l with
  | nil => intro _; rfl
  | cons p rest ih =>
    obtain ⟨k1, v1⟩ := p
    intro hs
    rw [sorted_keys_cons] at hs
    obtain ⟨hh, hrest⟩ := And.intro (Bool.and_elim_left hs) (Bool.and_elim_right hs)
    simp only [obj_insert]
    by_cases h1 : key_lt k k1 = true
    · rw [if_pos h1, sorted_keys_cons]
      show (key_lt k k1 && sorted_keys ((k1, v1) :: rest)) = true
      rw [h1, sorted_keys_cons, hh, hrest]
      rfl
    · rw [if_neg h1]
      by_cases h2 : k = k1
      · rw [if_pos h2, sorted_keys_cons]
        subst h2
        simp [hh, hrest]
      · rw [if_neg h2, sorted_keys_cons]
        have hk1k : key_lt k1 k = true := by
          rcases key_lt_connex k k1 h2 with h | h
          · exact absurd h h1
          · exact h
        rw [key_lt_head_insert k1 k v rest hk1k hh, ih hrest]
        rfl

theorem obj_keys_insert (k : List Nat) (v : Atom) :
    ∀ l, obj_keys (obj_insert k v l) = key_insert k (obj_keys l) := by
  intro l
  induction l with
  | nil => rfl
  | cons p rest ih =>
    obtain ⟨k1, v1⟩ := p
    simp only [obj_insert, obj_keys, key_insert, List.map_cons]
    by_cases h1 : key_lt k k1 = true
    · rw [if_pos h1, if_pos h1]; rfl
    · rw [if_neg h1, if_neg h1]
      by_cases h2 : k = k1
      · rw [if_pos h2, if_pos h2]; rfl
      · rw [if_neg h2, if_neg h2]
        simp only [obj_keys] at ih
        simp [ih]

theorem obj_find_insert (k : List Nat) (v : Atom) :
    ∀ l, obj_find k (obj_insert k v l) = some v := by
  intro l
  induction l with
  | nil => simp [obj_insert, obj_find]
  | cons p rest ih =>
    obtain ⟨k1, v1⟩ := p
    simp only [obj_insert]
    by_cases h1 : key_lt k k1 = true
    · rw [if_pos h1]; simp [obj_find]
    · rw [if_neg h1]
      by_cases h2 : k = k1
      · rw [if_pos h2]; simp [obj_find]
      · rw [if_neg h2]
        simp only [obj_find]
        rw [if_neg fun e => h2 e.symm]
        exact ih

theorem members_wf_insert (k : List Nat) (v : Atom) :
    ∀ l, members_wf l = true → atom_wf v = true → members_wf (obj_insert k v l) = true := by
  intro l
  induction l with
  | nil =>
    intro _ hv
    simp [obj_insert, members_wf, hv]
  | cons p rest ih =>
    obtain ⟨k1, v1⟩ := p
    intro hm hv
    simp only [members_wf, Bool.and_eq_true] at hm
    simp only [obj_insert]
    by_cases h1 : key_lt k k1 = true
    · rw [if_pos h1]
      simp [members_wf, hv, hm.1, hm.2]
    · rw [if_neg h1]
      by_cases h2 : k = k1
      · rw [if_pos h2]
        simp [members_wf, hv, hm.2]
      · rw [if_neg h2]
        simp [members_wf, hm.1, ih hm.2 hv]

theorem atoms_wf_append (v : Atom) :
    ∀ l, atoms_wf l = true → atom_wf v = true → atoms_wf (l ++ [v]) = true := by
  intro l
  induction l with
  | nil =>
    intro _ hv
    simp [atoms_wf, hv]
  | cons a rest ih =>
    intro hl hv
    simp only [atoms_wf, Bool.and_eq_true] at hl
    simp only [List.cons_append, atoms_wf]
    simp [hl.1, ih hl.2 hv]

theorem number_from_bytes_wf (s : List Nat) (t : Bool) :
    atom_wf (number_from_bytes s t) = true := by
  unfold number_from_bytes
  split
  · cases i64_from_str s with
    | none => simp [atom_wf]
    | some v =>
      show atom_wf
        (if -(2 ^ 53) < v ∧ v < 2 ^ 53 then .IntegralNumber v else .Number (f64_from_str s)) = true
      split_ifs <;> simp [atom_wf]
  · simp [atom_wf]

theorem number_exp_and_finish_wf (bytes : List Nat) (ti : Bool) (l : List Nat) :
    ∀ a r, number_exp_and_finish bytes ti l = .ok (a, r) → atom_wf a = true := by
  intro a r h
  unfold number_exp_and_finish at h
  dsimp only at h
  repeat first
    | split at h
    | split_ifs at h
  all_goals first
    | exact Except.noConfusion h
    | (simp only [Except.ok.injEq, Prod.mk.injEq] at h
       exact h.1 ▸ number_from_bytes_wf _ _)

theorem number_frac_and_finish_wf (bytes : List Nat) (l : List Nat) :
    ∀ a r, number_frac_and_finish bytes l = .ok (a, r) → atom_wf a = true := by
  intro a r h
  unfold number_frac_and_finish at h
  dsimp only at h
  repeat first
    | split at h
    | split_ifs at h
  all_goals first
    | exact Except.noConfusion h
    | exact number_exp_and_finish_wf _ _ _ _ _ h

theorem number_no_peek_wf (initial : Nat) (l : List Nat) :
    ∀ a r, number_no_peek initial l = .ok (a, r) → atom_wf a = true := by
  intro a r h
  unfold number_no_peek at h
  dsimp only at h
  split_ifs at h
  · simp only [Except.ok.injEq, Prod.mk.injEq] at h
    exact h.1 ▸ (by simp [atom_wf])
  all_goals
    split at h <;>
      first
        | exact Except.noConfusion h
        | exact number_frac_and_finish_wf _ _ _ _ h

/-- The parser invariant behind C5: every atom any production returns has
all of its objects strictly sorted by key content (hence unique keys). -/
theorem parser_wf : ∀ fuel : Nat,
    (∀ l a r, value_opt fuel l = .ok (some a, r) → atom_wf a = true)
    ∧ (∀ l o r, object_no_peek fuel l = .ok (o, r) →
        sorted_keys o = true ∧ members_wf o = true)
    ∧ (∀ l o r, object_items_opt fuel l = .ok (o, r) →
        sorted_keys o = true ∧ members_wf o = true)
    ∧ (∀ items l o r, sorted_keys items = true → members_wf items = true →
        object_items_loop fuel items l = .ok (o, r) →
        sorted_keys o = true ∧ members_wf o = true)
    ∧ (∀ l k a r, member_opt fuel l = .ok (some (k, a), r) → atom_wf a = true)
    ∧ (∀ l o r, array_no_peek fuel l = .ok (o, r) → atoms_wf o = true)
    ∧ (∀ l o r, array_items_opt fuel l = .ok (o, r) → atoms_wf o = true)
    ∧ (∀ elems l o r, atoms_wf elems = true →
        array_items_loop fuel elems l = .ok (o, r) → atoms_wf o = true) := by
  intro fuel
  induction fuel with
  | zero =>
    refine ⟨?_, ?_, ?_, ?_, ?_, ?_, ?_, ?_⟩ <;> intros <;>
      simp_all [value_opt, object_no_peek, object_items_opt, object_items_loop,
        member_opt, array_no_peek, array_items_opt, array_items_loop]
  | succ n ih =>
    obtain ⟨ihv, ihon, ihoi, ihol, ihm, ihan, ihai, ihal⟩ := ih
    have hval : ∀ l a r, value_opt (n + 1) l = .ok (some a, r) → atom_wf a = true := by
      intro l a r h
      unfold value_opt at h
      cases l with
      | nil => simp at h
      | cons b rest =>
        dsimp only at h
        split_ifs at h with h66 h6e h74 h7b h5b hnum hq hpipe
        · cases hft : fixed_token_opt [0x66, 0x61, 0x6c, 0x73, 0x65] (b :: rest) with
          | mk f s =>
            rw [hft] at h
            cases f with
            | none => simp at h
            | some u =>
              simp only [Except.ok.injEq, Prod.mk.injEq, Option.some.injEq] at h
              exact h.1 ▸ (by simp [atom_wf])
        · cases hft : fixed_token_opt [0x6e, 0x75, 0x6c, 0x6c] (b :: rest) with
          | mk f s =>
            rw [hft] at h
            cases f with
            | none => simp at h
            | some u =>
              simp only [Except.ok.injEq, Prod.mk.injEq, Option.some.injEq] at h
              exact h.1 ▸ (by simp [atom_wf])
        · cases hft : fixed_token_opt [0x74, 0x72, 0x75, 0x65] (b :: rest) with
          | mk f s =>
            rw [hft] at h
            cases f with
            | none => simp at h
            | some u =>
              simp only [Except.ok.injEq, Prod.mk.injEq, Option.some.injEq] at h
              exact h.1 ▸ (by simp [atom_wf])
        · cases hob : object_no_peek n (b :: rest) with
          | error e => rw [hob] at h; simp at h
          | ok p =>
            obtain ⟨o1, r1⟩ := p
            rw [hob] at h
            simp only [Except.ok.injEq, Prod.mk.injEq, Option.some.injEq] at h
            have hw := ihon _ _ _ hob
            exact h.1 ▸ (by simp [atom_wf, hw.1, hw.2])
        · cases hab : array_no_peek n (b :: rest) with
          | error e => rw [hab] at h; simp at h
          | ok p =>
            obtain ⟨o1, r1⟩ := p
            rw [hab] at h
            simp only [Except.ok.injEq, Prod.mk.injEq, Option.some.injEq] at h
            have hw := ihan _ _ _ hab
            exact h.1 ▸ (by simp [atom_wf, hw])
        · cases hnb : number_no_peek b rest with
          | error e => rw [hnb] at h; simp at h
          | ok p =>
            obtain ⟨a1, r1⟩ := p
            rw [hnb] at h
            simp only [Except.ok.injEq, Prod.mk.injEq, Option.some.injEq] at h
            exact h.1 ▸ number_no_peek_wf _ _ _ _ hnb
        · cases hsb : string_no_peek n b rest with
          | error e => rw [hsb] at h; simp at h
          | ok p =>
            obtain ⟨s1, r1⟩ := p
            rw [hsb] at h
            simp only [Except.ok.injEq, Prod.mk.injEq, Option.some.injEq] at h
            exact h.1 ▸ (by simp [atom_wf])
        · cases hvb : verbatim_loop n [] (b :: rest) with
          | error e => rw [hvb] at h; simp at h
          | ok p =>
            obtain ⟨f1, r1⟩ := p
            rw [hvb] at h
            simp only [Except.ok.injEq, Prod.mk.injEq, Option.some.injEq] at h
            exact h.1 ▸ (by simp [atom_wf])
        · simp at h
    have hmem : ∀ l k a r, member_opt (n + 1) l = .ok (some (k, a), r) → atom_wf a = true := by
      intro l k a r h
      unfold member_opt at h
      cases hn : name_opt n l with
      | error e => rw [hn] at h; simp at h
      | ok p =>
        obtain ⟨nm, r1⟩ := p
        rw [hn] at h
        cases nm with
        | none => simp at h
        | some name =>
          simp only at h
          split at h
          · split_ifs at h
            · cases hv : value_opt n (skip_ws _).2 with
              | error e => rw [hv] at h; simp at h
              | ok p2 =>
                obtain ⟨ov, r2⟩ := p2
                rw [hv] at h
                cases ov with
                | none => simp at h
                | some v =>
                  simp only [Except.ok.injEq, Prod.mk.injEq, Option.some.injEq] at h
                  have := ihv _ _ _ hv
                  rw [← h.1.2]
                  exact this
          · simp at h
    refine ⟨hval, ?_, ?_, ?_, hmem, ?_, ?_, ?_⟩
    · -- object_no_peek
      intro l o r h
      unfold object_no_peek at h
      cases hoi : object_items_opt n (skip_ws (l.drop 1)).2 with
      | error e => rw [hoi] at h; simp at h
      | ok p =>
        obtain ⟨items, r1⟩ := p
        rw [hoi] at h
        dsimp only at h
        split at h
        · simp only [Except.ok.injEq, Prod.mk.injEq] at h
          exact h.1 ▸ ihoi _ _ _ hoi
        · simp at h
    · -- object_items_opt
      intro l o r h
      unfold object_items_opt at h
      cases hm : member_opt n l with
      | error e => rw [hm] at h; simp at h
      | ok p =>
        obtain ⟨om, r1⟩ := p
        rw [hm] at h
        cases om with
        | none =>
          simp only [Except.ok.injEq, Prod.mk.injEq] at h
          refine h.1 ▸ ⟨rfl, rfl⟩
        | some kv =>
          obtain ⟨k, v⟩ := kv
          have hwv : atom_wf v = true := ihm _ _ _ _ hm
          exact ihol _ _ _ _ (by rfl) (by simp [obj_insert, members_wf, hwv]) h
    · -- object_items_loop
      intro items l o r hs hw h
      unfold object_items_loop at h
      cases hsep : skip_value_separator_opt l with
      | mk os r1 =>
        rw [hsep] at h
        cases os with
        | none =>
          simp only [Except.ok.injEq, Prod.mk.injEq] at h
          exact h.1 ▸ ⟨hs, hw⟩
        | some u =>
          dsimp only at h
          cases hm : member_opt n r1 with
          | error e => rw [hm] at h; simp at h
          | ok p =>
            obtain ⟨om, r2⟩ := p
            rw [hm] at h
            cases om with
            | none =>
              simp only [Except.ok.injEq, Prod.mk.injEq] at h
              exact h.1 ▸ ⟨hs, hw⟩
            | some kv =>
              obtain ⟨k, v⟩ := kv
              have hwv : atom_wf v = true := ihm _ _ _ _ hm
              exact ihol _ _ _ _ (obj_insert_sorted k v items hs)
                (members_wf_insert k v items hw hwv) h
    · -- array_no_peek
      intro l o r h
      unfold array_no_peek at h
      cases hai : array_items_opt n (skip_ws (l.drop 1)).2 with
      | error e => rw [hai] at h; simp at h
      | ok p =>
        obtain ⟨elems, r1⟩ := p
        rw [hai] at h
        dsimp only at h
        split at h
        · simp only [Except.ok.injEq, Prod.mk.injEq] at h
          exact h.1 ▸ ihai _ _ _ hai
        · simp at h
    · -- array_items_opt
      intro l o r h
      unfold array_items_opt at h
      cases hv : value_opt n l with
      | error e => rw [hv] at h; simp at h
      | ok p =>
        obtain ⟨ov, r1⟩ := p
        rw [hv] at h
        cases ov with
        | none =>
          simp only [Except.ok.injEq, Prod.mk.injEq] at h
          exact h.1 ▸ rfl
        | some v =>
          have hwv : atom_wf v = true := ihv _ _ _ hv
          exact ihal _ _ _ _ (by simp [atoms_wf, hwv]) h
    · -- array_items_loop
      intro elems l o r hw h
      unfold array_items_loop at h
      cases hsep : skip_value_separator_opt l with
      | mk os r1 =>
        rw [hsep] at h
        cases os with
        | none =>
          simp only [Except.ok.injEq, Prod.mk.injEq] at h
          exact h.1 ▸ hw
        | some u =>
          dsimp only at h
          cases hv : value_opt n r1 with
          | error e => rw [hv] at h; simp at h
          | ok p =>
            obtain ⟨ov, r2⟩ := p
            rw [hv] at h
            cases ov with
            | none =>
              simp only [Except.ok.injEq, Prod.mk.injEq] at h
              exact h.1 ▸ hw
            | some v =>
              have hwv : atom_wf v = true := ihv _ _ _ hv
              exact ihal _ _ _ _ (atoms_wf_append v elems hw hwv) h

/-- C5.  Objects keep unique keys in sorted key-content order.  First: every
atom either entry point returns is well-formed — each of its objects is
strictly ascending in byte-lexicographic key order (strictness is key
uniqueness).  Second: inserting into a sorted member list keeps it sorted,
places the member purely by key comparison (the key sequence of the result
is a function of the inserted key and the old key sequence alone, never of
the values or of which occurrence was written), and the inserted key maps
to the new value (last write wins).  Third: parse-as-value of "{a:1, a:2}"
yields the object with the single member "a" mapped to the integral value
2. -/
theorem object_keys_sorted_last_write_wins :
    (∀ l a, parse_value_from_buf l = .ok a → atom_wf a = true)
    ∧ (∀ l a, parse_document_from_buf l = .ok a → atom_wf a = true)
    ∧ (∀ k v l, sorted_keys l = true →
        sorted_keys (obj_insert k v l) = true
        ∧ obj_keys (obj_insert k v l) = key_insert k (obj_keys l)
        ∧ obj_find k (obj_insert k v l) = some v)
    ∧ parse_value_from_buf [0x7b, 0x61, 0x3a, 0x31, 0x2c, 0x20, 0x61, 0x3a, 0x32, 0x7d]
        = .ok (.Object [([0x61], .IntegralNumber 2)]) := by
  refine ⟨?_, ?_, ?_, rfl⟩
  · intro l a h
    unfold parse_value_from_buf parse_value value at h
    cases hv : value_opt (initial_fuel l) (skip_ws l).2 with
    | error e => rw [hv] at h; simp at h
    | ok p =>
      obtain ⟨ov, r1⟩ := p
      rw [hv] at h
      cases ov with
      | none => simp at h
      | some v =>
        dsimp only at h
        split at h
        · simp only [Except.ok.injEq] at h
          exact h ▸ (parser_wf (initial_fuel l)).1 _ _ _ hv
        · exact Except.noConfusion h
  · intro l a h
    unfold parse_document_from_buf parse_document at h
    cases hd : document (initial_fuel l) l with
    | error e => rw [hd] at h; simp at h
    | ok p =>
      obtain ⟨v, r1⟩ := p
      rw [hd] at h
      dsimp only at h
      have hav : a = v := by
        split at h
        · simp only [Except.ok.injEq] at h
          exact h.symm
        · exact Except.noConfusion h
      subst hav
      unfold document at hd
      split at hd
      · exact Except.noConfusion hd
      · rename_i b r heq
        split_ifs at hd with h7b h5b
        · cases ho : object_no_peek (initial_fuel l) (b :: r) with
          | error e => rw [ho] at hd; simp at hd
          | ok p2 =>
            obtain ⟨o1, r2⟩ := p2
            rw [ho] at hd
            dsimp only at hd
            simp only [Except.ok.injEq, Prod.mk.injEq] at hd
            have hw := (parser_wf (initial_fuel l)).2.1 _ _ _ ho
            exact hd.1 ▸ (by simp [atom_wf, hw.1, hw.2])
        · cases ho : array_no_peek (initial_fuel l) (b :: r) with
          | error e => rw [ho] at hd; simp at hd
          | ok p2 =>
            obtain ⟨o1, r2⟩ := p2
            rw [ho] at hd
            dsimp only at hd
            simp only [Except.ok.injEq, Prod.mk.injEq] at hd
            have hw := (parser_wf (initial_fuel l)).2.2.2.2.2.1 _ _ _ ho
            exact hd.1 ▸ (by simp [atom_wf, hw])
        · cases ho : object_items_opt (initial_fuel l) (skip_ws (b :: r)).2 with
          | error e => rw [ho] at hd; simp at hd
          | ok p2 =>
            obtain ⟨o1, r2⟩ := p2
            rw [ho] at hd
            dsimp only at hd
            simp only [Except.ok.injEq, Prod.mk.injEq] at hd
            have hw := (parser_wf (initial_fuel l)).2.2.1 _ _ _ ho
            exact hd.1 ▸ (by simp [atom_wf, hw.1, hw.2])
  · intro k v l hs
    exact ⟨obj_insert_sorted k v l hs, obj_keys_insert k v l, obj_find_insert k v l⟩

/-- Witness for C5: the well-formedness statement applied at the parse of
"{a:1, a:2}" and the insert statement applied at a concrete sorted list
holding keys "a" and "c", inserting at the existing key "a". -/
theorem object_keys_sorted_last_write_wins_witness :
    (parse_value_from_buf [0x7b, 0x61, 0x3a, 0x31, 0x2c, 0x20, 0x61, 0x3a, 0x32, 0x7d]
        = .ok (.Object [([0x61], .IntegralNumber 2)])
      ∧ atom_wf (.Object [([0x61], .IntegralNumber 2)]) = true)
    ∧ (sorted_keys [([0x61], Atom.Null), ([0x63], Atom.Null)] = true
      ∧ sorted_keys (obj_insert [0x61] .True [([0x61], Atom.Null), ([0x63], Atom.Null)]) = true
      ∧ obj_keys (obj_insert [0x61] .True [([0x61], Atom.Null), ([0x63], Atom.Null)])
          = key_insert [0x61] (obj_keys [([0x61], Atom.Null), ([0x63], Atom.Null)])
      ∧ obj_find [0x61] (obj_insert [0x61] .True [([0x61], Atom.Null), ([0x63], Atom.Null)])
          = some .True) :=
  ⟨⟨rfl,
    object_keys_sorted_last_write_wins.1 [0x7b, 0x61, 0x3a, 0x31, 0x2c, 0x20, 0x61, 0x3a, 0x32, 0x7d]
      (.Object [([0x61], .IntegralNumber 2)]) rfl⟩,
   by decide,
   object_keys_sorted_last_write_wins.2.2.1 [0x61] .True
     [([0x61], Atom.Null), ([0x63], Atom.Null)] (by decide)⟩

/-! ## Helper lemmas for C1: the integral-versus-float decision -/

/-- The decision rule claimed for a literal with accumulated bytes `s`
parsed to atom `a`: no fraction/exponent marker plus an in-window signed
64-bit parse gives the integral atom; every other case gives the float
parse of the same bytes. -/
def integral_float_decision (s : List Nat) (a : Atom) : Prop :=
  (no_dot_exp s = true → ∀ v, i64_from_str s = some v →
    -(2 ^ 53) < v → v < 2 ^ 53 → a = .IntegralNumber v)
  ∧ (no_dot_exp s = false → a = .Number (f64_from_str s))
  ∧ (i64_from_str s = none → a = .Number (f64_from_str s))
  ∧ (∀ v, i64_from_str s = some v → (v ≤ -(2 ^ 53) ∨ 2 ^ 53 ≤ v) →
    a = .Number (f64_from_str s))

theorem i64_from_str_none_of_bad (s : List Nat) (b : Nat) (hb : b ∈ s)
    (hbd : is_digit b = false) (hbm : b ≠ 0x2d) (hbp : b ≠ 0x2b) :
    i64_from_str s = none := by
  have hcond : ∀ r : List Nat, b ∈ r → ¬(r ≠ [] ∧ r.all is_digit = true) := by
    rintro r hbr ⟨-, hall⟩
    rw [List.all_eq_true] at hall
    rw [hall b hbr] at hbd
    exact Bool.noConfusion hbd
  unfold i64_from_str
  cases s with
  | nil => cases hb
  | cons hd tl =>
    dsimp only
    by_cases h1 : hd = 0x2d
    · subst h1
      rw [if_pos rfl]
      dsimp only
      rw [if_neg (hcond tl (by
        cases hb with
        | head => exact absurd rfl hbm
        | tail _ h => exact h))]
    · rw [if_neg h1]
      by_cases h2 : hd = 0x2b
      · subst h2
        rw [if_pos rfl]
        dsimp only
        rw [if_neg (hcond tl (by
          cases hb with
          | head => exact absurd rfl hbp
          | tail _ h => exact h))]
      · rw [if_neg h2]
        dsimp only
        rw [if_neg (hcond (hd :: tl) hb)]

theorem i64_from_str_none_of_dot_exp (s : List Nat) (hs : no_dot_exp s = false) :
    i64_from_str s = none := by
  unfold no_dot_exp at hs
  rw [List.all_eq_false] at hs
  obtain ⟨b, hmem, hbad⟩ := hs
  have hb3 : b = 0x2e ∨ b = 0x65 ∨ b = 0x45 := by
    by_contra hc
    push_neg at hc
    apply hbad
    simp [hc.1, hc.2.1, hc.2.2]
  rcases hb3 with rfl | rfl | rfl <;>
    exact i64_from_str_none_of_bad s _ hmem (by decide) (by decide) (by decide)

theorem decision_of_true (s : List Nat) (a : Atom) (ha : a = number_from_bytes s true) :
    integral_float_decision s a := by
  refine ⟨?_, ?_, ?_, ?_⟩
  · intro _ v hv h1 h2
    rw [ha]
    unfold number_from_bytes
    rw [if_pos rfl, hv]
    dsimp only
    rw [if_pos ⟨h1, h2⟩]
  · intro hfalse
    rw [ha]
    unfold number_from_bytes
    rw [if_pos rfl, i64_from_str_none_of_dot_exp s hfalse]
  · intro hnone
    rw [ha]
    unfold number_from_bytes
    rw [if_pos rfl, hnone]
  · intro v hv hout
    rw [ha]
    unfold number_from_bytes
    rw [if_pos rfl, hv]
    dsimp only
    rw [if_neg (by omega)]

theorem decision_of_false (s : List Nat) (a : Atom) (hs : no_dot_exp s = false)
    (ha : a = .Number (f64_from_str s)) : integral_float_decision s a := by
  refine ⟨?_, fun _ => ha, fun _ => ha, fun _ _ _ => ha⟩
  intro htrue
  rw [htrue] at hs
  exact absurd hs (by simp)

/-- What the exponent stage produces: either no exponent marker follows (the
bytes so far are final, nothing more is consumed) or an exponent group —
which contains the marker, hence fails `no_dot_exp` — is appended. -/
theorem exp_finish_spec (B : List Nat) (ti : Bool) (lx : List Nat) (a : Atom)
    (rest : List Nat) (h : number_exp_and_finish B ti lx = .ok (a, rest)) :
    (a = number_from_bytes B ti ∧ lx = rest)
    ∨ (∃ ebytes, no_dot_exp ebytes = false ∧ lx = ebytes ++ rest
        ∧ a = number_from_bytes (B ++ ebytes) false) := by
  unfold number_exp_and_finish at h
  cases lx with
  | nil =>
    simp only [Except.ok.injEq, Prod.mk.injEq] at h
    exact Or.inl ⟨h.1.symm, h.2⟩
  | cons e r4 =>
    dsimp only at h
    split_ifs at h with he
    · -- exponent marker present
      cases r4 with
      | nil =>
        dsimp only at h
        exact absurd h (by simp)
      | cons c r5 =>
        dsimp only at h
        by_cases hc : c = 0x2d ∨ c = 0x2b
        · rw [if_pos hc] at h
          dsimp only at h
          cases r5 with
          | nil => exact absurd h (by simp)
          | cons d r6 =>
            dsimp only at h
            split_ifs at h with hd
            · simp only [Except.ok.injEq, Prod.mk.injEq] at h
              refine Or.inr ⟨e :: c :: d :: (digits_opt r6).1, ?_, ?_, ?_⟩
              · rcases he with rfl | rfl <;> simp [no_dot_exp]
              · have hsplit : r6 = (digits_opt r6).1 ++ (digits_opt r6).2 :=
                  (List.takeWhile_append_dropWhile _ _).symm
                rw [← h.2]
                simp only [List.cons_append]
                rw [← hsplit]
              · rw [← h.1]
                congr 1
                simp
        · rw [if_neg hc] at h
          dsimp only at h
          split_ifs at h with hd
          · simp only [Except.ok.injEq, Prod.mk.injEq] at h
            refine Or.inr ⟨e :: c :: (digits_opt r5).1, ?_, ?_, ?_⟩
            · rcases he with rfl | rfl <;> simp [no_dot_exp]
            · have hsplit : r5 = (digits_opt r5).1 ++ (digits_opt r5).2 :=
                (List.takeWhile_append_dropWhile _ _).symm
              rw [← h.2]
              simp only [List.cons_append]
              rw [← hsplit]
            · rw [← h.1]
              congr 1
              simp
    · simp only [Except.ok.injEq, Prod.mk.injEq] at h
      exact Or.inl ⟨h.1.symm, h.2⟩

/-- What the fraction stage produces: either no fraction and no exponent
(bytes final, nothing consumed, still an integral candidate) or a group
containing a dot or an exponent marker is appended. -/
theorem frac_finish_spec (B : List Nat) (lx : List Nat) (a : Atom)
    (rest : List Nat) (h : number_frac_and_finish B lx = .ok (a, rest)) :
    (a = number_from_bytes B true ∧ lx = rest)
    ∨ (∃ fbytes, no_dot_exp fbytes = false ∧ lx = fbytes ++ rest
        ∧ a = number_from_bytes (B ++ fbytes) false) := by
  unfold number_frac_and_finish at h
  split at h
  · -- fraction present: lx = 0x2e :: r
    rename_i r
    cases r with
    | nil => exact absurd h (by simp)
    | cons c r3 =>
      dsimp only at h
      split_ifs at h with hc
      · have hsplit : r3 = (digits_opt r3).1 ++ (digits_opt r3).2 :=
          (List.takeWhile_append_dropWhile _ _).symm
        rcases exp_finish_spec _ _ _ _ _ h with ⟨ha, hr⟩ | ⟨ebytes, hno, hr, ha⟩
        · refine Or.inr ⟨0x2e :: c :: (digits_opt r3).1, by simp [no_dot_exp], ?_, ?_⟩
          · rw [← hr]
            simp only [List.cons_append]
            rw [← hsplit]
          · rw [ha]
        · refine Or.inr ⟨0x2e :: c :: ((digits_opt r3).1 ++ ebytes), by simp [no_dot_exp],
            ?_, ?_⟩
          · simp only [List.cons_append, List.append_assoc]
            rw [← hr, ← hsplit]
          · rw [ha]
            congr 1
            simp
  · -- no fraction
    exact (exp_finish_spec _ _ _ _ _ h).imp id
      (fun ⟨e, hno, hr, ha⟩ => ⟨e, hno, hr, ha⟩)


theorem no_dot_exp_append_false (x y : List Nat) (hy : no_dot_exp y = false) :
    no_dot_exp (x ++ y) = false := by
  unfold no_dot_exp at *
  rw [List.all_append, hy, Bool.and_false]

set_option maxHeartbeats 1600000 in
/-- C1.  The integral-versus-float decision of the number production: for
every accepted number literal (whose bytes `s` are the consumed prefix,
pinned by `initial :: l = s ++ rest`), if no fractional or exponent part is
present and the bytes parse as a signed 64-bit integer strictly between
-2^53 and 2^53 the result is that integral value, and in every other case
(fraction or exponent present, 64-bit parse failure, or value outside the
open window) the result is the float parse of the same bytes.  Concretely
"72057594037927936" (2^56, exactly representable in both i64 and binary64)
parses to the float 72057594037927936 and "1e3" to the float 1000. -/
theorem number_integral_vs_float :
    (∀ initial l a rest, number_no_peek initial l = .ok (a, rest) →
      ∃ s, initial :: l = s ++ rest ∧ integral_float_decision s a)
    ∧ parse_value_from_buf [0x37, 0x32, 0x30, 0x35, 0x37, 0x35, 0x39, 0x34, 0x30, 0x33,
        0x37, 0x39, 0x32, 0x37, 0x39, 0x33, 0x36] = .ok (.Number 72057594037927936)
    ∧ parse_value_from_buf [0x31, 0x65, 0x33] = .ok (.Number 1000) := by
  refine ⟨?_, ?_, ?_⟩
  · intro initial l a rest h
    unfold number_no_peek at h
    dsimp only at h
    split_ifs at h with hsc hm45
    · -- zero shortcut
      simp only [Except.ok.injEq, Prod.mk.injEq] at h
      refine ⟨[0x30], ?_, decision_of_true [0x30] a (by rw [← h.1]; rfl)⟩
      rw [← h.2, hsc.1]
      rfl
    · -- leading minus
      cases l with
      | nil =>
        dsimp only at h
        exact absurd h (by simp)
      | cons b r =>
        dsimp only at h
        split_ifs at h with hb
        rcases frac_finish_spec _ _ _ _ h with ⟨ha, hr⟩ | ⟨fb, hno, hr, ha⟩
        · refine ⟨[initial, b] ++ (digits_opt r).1, ?_, decision_of_true _ _ ha⟩
          rw [← hr]
          conv_lhs => rw [show r = (digits_opt r).1 ++ (digits_opt r).2 from
            (List.takeWhile_append_dropWhile _ _).symm]
          simp
        · refine ⟨[initial, b] ++ (digits_opt r).1 ++ fb, ?_,
            decision_of_false _ _ ?_ ha⟩
          · conv_lhs => rw [show r = (digits_opt r).1 ++ (digits_opt r).2 from
              (List.takeWhile_append_dropWhile _ _).symm]
            rw [hr]
            simp
          · exact no_dot_exp_append_false _ _ hno
    · -- digit other than a bare zero
      dsimp only at h
      rcases frac_finish_spec _ _ _ _ h with ⟨ha, hr⟩ | ⟨fb, hno, hr, ha⟩
      · refine ⟨[initial] ++ (digits_opt l).1, ?_, decision_of_true _ _ ha⟩
        rw [← hr]
        conv_lhs => rw [show l = (digits_opt l).1 ++ (digits_opt l).2 from
          (List.takeWhile_append_dropWhile _ _).symm]
        simp
      · refine ⟨[initial] ++ (digits_opt l).1 ++ fb, ?_,
          decision_of_false _ _ ?_ ha⟩
        · conv_lhs => rw [show l = (digits_opt l).1 ++ (digits_opt l).2 from
            (List.takeWhile_append_dropWhile _ _).symm]
          rw [hr]
          simp
        · exact no_dot_exp_append_false _ _ hno
  · have h1 : parse_value_from_buf [0x37, 0x32, 0x30, 0x35, 0x37, 0x35, 0x39, 0x34, 0x30,
        0x33, 0x37, 0x39, 0x32, 0x37, 0x39, 0x33, 0x36]
        = .ok (.Number (f64_from_str [0x37, 0x32, 0x30, 0x35, 0x37, 0x35, 0x39, 0x34, 0x30,
            0x33, 0x37, 0x39, 0x32, 0x37, 0x39, 0x33, 0x36])) := rfl
    rw [h1]
    norm_num [f64_from_str, digits_val, is_digit, List.takeWhile, List.dropWhile]
  · have h1 : parse_value_from_buf [0x31, 0x65, 0x33]
        = .ok (.Number (f64_from_str [0x31, 0x65, 0x33])) := rfl
    rw [h1]
    norm_num [f64_from_str, digits_val, is_digit, List.takeWhile, List.dropWhile]

/-- Witness for C1: the decision statement applied at the literal "42"
(no fraction or exponent, in-window): the parse returns the integral
value 42. -/
theorem number_integral_vs_float_witness :
    number_no_peek 0x34 [0x32] = .ok (.IntegralNumber 42, [])
    ∧ ∃ s, [0x34, 0x32] = s ++ ([] : List Nat)
        ∧ integral_float_decision s (.IntegralNumber 42) :=
  ⟨rfl, number_integral_vs_float.1 0x34 [0x32] (.IntegralNumber 42) [] rfl⟩

end Cson
